import Mathlib

/-!
Verification of the Ledger Derivation & Recurring-Transaction Engine of the
simple-ledger application (source: `src/App.tsx`, `src/unnamed/part_000`
(Google-Sheets sync service), `src/unnamed/part_001` (`types.ts`),
`src/unnamed/part_002` (`constants.ts`)).

Modelling conventions, used throughout:

* TypeScript strings are modelled as `Str := List Char` (JS strings compare
  and concatenate code-unit-wise; all characters appearing in the program's
  data are single code units).
* `amount : number` is modelled as `Option Int`: the data model stores
  rounded integers, and a corrupt / unparseable amount (`NaN`) is `none`.
* Optional string fields that the code only ever reads through `x || ''`
  (`location`) are modelled as plain `Str`, with `[]` for "absent".
  `toAccountId` and `endDate`, whose presence is tested by truthiness, are
  modelled as `Option Str` (`some []`, the empty string, is falsy in JS and
  the truthiness tests below reflect that).
* JS `Date` objects are modelled by a calendar triple `YMD` with the UTC
  calendar (the code parses ISO `YYYY-MM-DD` strings, which JS reads as UTC
  midnight, and re-serialises with `toISOString`); `setMonth`/`setDate`
  overflow normalisation is the JS one (day counts past the end of the
  month roll into the following month).
* Random unique ids (`Date.now()` + `Math.random()` suffixes) are modelled
  by deterministic fresh ids; no verified claim depends on the id text.
-/

/-- JS strings, as lists of characters. -/
abbrev Str := List Char

/-- Decimal digit to character. -/
def digitChar (n : Nat) : Char :=
  match n with
  | 0 => '0' | 1 => '1' | 2 => '2' | 3 => '3' | 4 => '4'
  | 5 => '5' | 6 => '6' | 7 => '7' | 8 => '8' | _ => '9'

/-- Character to decimal digit, `none` for non-digits. -/
def digitVal (c : Char) : Option Nat :=
  if c = '0' then some 0 else if c = '1' then some 1 else if c = '2' then some 2
  else if c = '3' then some 3 else if c = '4' then some 4 else if c = '5' then some 5
  else if c = '6' then some 6 else if c = '7' then some 7 else if c = '8' then some 8
  else if c = '9' then some 9 else none

/-- Decimal printing of a natural number, fuelled so that it reduces by
structural recursion (`fuel` must exceed the number of digits). -/
def natToDigitsAux : Nat → Nat → Str
  | 0, _ => []
  | fuel + 1, n => if n < 10 then [digitChar n] else natToDigitsAux fuel (n / 10) ++ [digitChar (n % 10)]

/-- Decimal printing of a natural number (JS `String(n)` for naturals). -/
def natToDigits (n : Nat) : Str := natToDigitsAux (n + 1) n

/-- JS `String(v)` for an integer. -/
def intToStr (v : Int) : Str :=
  if v < 0 then '-' :: natToDigits v.natAbs else natToDigits v.toNat

/-- Greedy digit-prefix accumulator: consumes leading digits, ignores the rest
(the way `parseFloat` reads an integer literal and stops at the first
non-digit character). -/
def parseDigitsAux : Str → Nat → Nat
  | [], acc => acc
  | c :: rest, acc =>
    match digitVal c with
    | some d => parseDigitsAux rest (acc * 10 + d)
    | none => acc

/-- Model of JS `parseFloat`, restricted to the integer-valued amounts of the
data model: an optional sign followed by at least one digit parses to the
integer read from the digit prefix (trailing junk ignored, as in JS); anything
else is `NaN`, i.e. `none`.  Fractional digits after a `.` are dropped; the
verified claims only involve integer amounts. -/
def parseFloatM (s : Str) : Option Int :=
  match s with
  | [] => none
  | c :: rest =>
    if c = '-' then
      match rest with
      | c2 :: _ => if (digitVal c2).isSome then some (-(parseDigitsAux rest 0 : Int)) else none
      | [] => none
    else if (digitVal c).isSome then some ((parseDigitsAux (c :: rest) 0 : Int)) else none

/-- JS code-unit comparison `a < b` on strings (lexicographic). -/
def jsStrLT : Str → Str → Bool
  | [], [] => false
  | [], _ :: _ => true
  | _ :: _, [] => false
  | a :: s, b :: t => if a.val < b.val then true else if b.val < a.val then false else jsStrLT s t

/-- JS string comparison `a <= b`. -/
def jsStrLE (a b : Str) : Bool := !jsStrLT b a

/-- JS `s.split(c)` (keeps empty pieces, never returns an empty list). -/
def splitChar (c : Char) : Str → List Str
  | [] => [[]]
  | x :: rest =>
    if x = c then [] :: splitChar c rest
    else
      match splitChar c rest with
      | f :: fs => (x :: f) :: fs
      | [] => [[x]]

/-- JS whitespace test for `trim` (the characters relevant to this program). -/
def jsWS (c : Char) : Bool := c = ' ' || c = '\t' || c = '\n' || c = '\r'

/-- JS `s.trim()`. -/
def trimStr (l : Str) : Str :=
  ((l.dropWhile jsWS).reverse.dropWhile jsWS).reverse

/-!  Calendar arithmetic mirroring JS `Date` field setters in UTC.  -/

/-- Calendar date: year, 0-based month (like JS `getMonth()`), 1-based day. -/
structure YMD where
  y : Int
  m : Nat
  d : Nat
deriving DecidableEq, Repr

/-- Gregorian leap-year test. -/
def isLeap (y : Int) : Bool := y % 4 == 0 && (y % 100 != 0 || y % 400 == 0)

/-- Length of 0-based month `m` of year `y`. -/
def daysInMonth (y : Int) (m : Nat) : Nat :=
  match m with
  | 0 => 31
  | 1 => if isLeap y then 29 else 28
  | 2 => 31 | 3 => 30 | 4 => 31 | 5 => 30
  | 6 => 31 | 7 => 31 | 8 => 30 | 9 => 31 | 10 => 30
  | _ => 31

/-- Normalise a (possibly ≥ 12) month index into a year carry, as JS does when
a setter pushes the month past December. -/
def normMonth (y : Int) (m : Nat) : Int × Nat := (y + m / 12, m % 12)

/-- JS day-overflow normalisation: a day count past the end of the month rolls
into the following month.  All call sites below produce `d ≤ 38`, so a single
carry (month length ≥ 28) is exact. -/
def carryDay (y : Int) (m : Nat) (d : Nat) : YMD :=
  if d > daysInMonth y m then
    let p := normMonth y (m + 1)
    ⟨p.1, p.2, d - daysInMonth y m⟩
  else ⟨y, m, d⟩

/-- JS `d.setDate(d.getDate() + n)`. -/
def addDaysJS (dt : YMD) (n : Nat) : YMD := carryDay dt.y dt.m (dt.d + n)

/-- JS `d.setMonth(d.getMonth() + 1)`. -/
def stepMonth (dt : YMD) : YMD :=
  let p := normMonth dt.y (dt.m + 1)
  carryDay p.1 p.2 dt.d

/-- JS `d.setFullYear(d.getFullYear() + 1)`. -/
def stepYear (dt : YMD) : YMD := carryDay (dt.y + 1) dt.m dt.d

/-- The source's `while (true)` parity loop for the bi-monthly frequencies,
with enough fuel; `biLoop_parity` below proves the loop always exits with the
requested parity within the fuel for valid dates. -/
def biLoop : Nat → Bool → YMD → YMD
  | 0, _, dt => dt
  | fuel + 1, wantOdd, dt =>
    if (decide ((dt.m + 1) % 2 = 1)) == wantOdd then dt
    else biLoop fuel wantOdd (stepMonth dt)

/-- Recurrence frequencies (`types.ts`). -/
inductive Frequency where
  | DAILY | WEEKLY | MONTHLY | BI_MONTHLY_ODD | BI_MONTHLY_EVEN | YEARLY
deriving DecidableEq, Repr

/-- Calendar core of `getNextDate` (`App.tsx` lines 221-240): the date-object
manipulation between `new Date(dateStr)` and `toISOString`. -/
def stepYMD (dt : YMD) (freq : Frequency) : YMD :=
  match freq with
  | Frequency.DAILY => addDaysJS dt 1
  | Frequency.WEEKLY => addDaysJS dt 7
  | Frequency.MONTHLY => stepMonth dt
  | Frequency.YEARLY => stepYear dt
  | Frequency.BI_MONTHLY_ODD => biLoop 24 true (stepMonth dt)
  | Frequency.BI_MONTHLY_EVEN => biLoop 24 false (stepMonth dt)

/-- Serialisation `YYYY-MM-DD` (what `toISOString().split('T')[0]` and the
template `` `${y}-${m}-${d}` `` with 2-padded month/day produce; they agree for
years 1000-9999, the range modelled here). -/
def formatYMD (dt : YMD) : Str :=
  [digitChar (dt.y.toNat / 1000), digitChar (dt.y.toNat / 100 % 10),
   digitChar (dt.y.toNat / 10 % 10), digitChar (dt.y.toNat % 10)] ++
  ['-'] ++ [digitChar ((dt.m + 1) / 10), digitChar ((dt.m + 1) % 10)] ++
  ['-'] ++ [digitChar (dt.d / 10), digitChar (dt.d % 10)]

/-- Strict ISO `YYYY-MM-DD` parse: model of `new Date(dateStr)` on the date
strings this program produces and consumes.  JS rejects out-of-range
calendar components in ISO strings (`Invalid Date`), hence the range checks. -/
def parseISO (s : Str) : Option YMD :=
  match s with
  | [a, b, c, d, h1, e, f, h2, g, h] =>
    if h1 = '-' ∧ h2 = '-' then
      match digitVal a, digitVal b, digitVal c, digitVal d, digitVal e, digitVal f, digitVal g, digitVal h with
      | some va, some vb, some vc, some vd, some ve, some vf, some vg, some vh =>
        let y : Nat := 1000 * va + 100 * vb + 10 * vc + vd
        let mo : Nat := 10 * ve + vf
        let dd : Nat := 10 * vg + vh
        if 1 ≤ mo ∧ mo ≤ 12 ∧ 1 ≤ dd ∧ dd ≤ daysInMonth (y : Int) (mo - 1) then
          some ⟨(y : Int), mo - 1, dd⟩
        else none
      | _, _, _, _, _, _, _, _ => none
    else none
  | _ => none

/-- String-level `getNextDate` (`App.tsx` 221-240): parse, step, re-serialise.
On a string `new Date` cannot parse the source would raise when serialising;
the scheduler only ever calls it on dates it previously serialised, and the
model returns the input unchanged in that unreachable case. -/
def getNextDateStr (s : Str) (freq : Frequency) : Str :=
  match parseISO s with
  | some dt => formatYMD (stepYMD dt freq)
  | none => s

/-- Validity of a calendar date as stored in `YYYY-MM-DD` strings. -/
def ValidYMD (dt : YMD) : Prop :=
  dt.m ≤ 11 ∧ 1 ≤ dt.d ∧ dt.d ≤ daysInMonth dt.y dt.m

/-- Validity plus the four-digit year range in which every serialisation in
the program agrees. -/
def Valid4 (dt : YMD) : Prop :=
  ValidYMD dt ∧ 1000 ≤ dt.y ∧ dt.y ≤ 9999

instance : DecidablePred ValidYMD := fun dt => by unfold ValidYMD; infer_instance

instance : DecidablePred Valid4 := fun dt => by unfold Valid4; infer_instance

/-!  Data model (`types.ts`, reproduced in `src/unnamed/part_001`).  -/

/-- Transaction kinds. -/
inductive TransactionType where
  | INCOME | EXPENSE | TRANSFER
deriving DecidableEq, Repr

/-- An account (`types.ts`); `type` is one of the five account-type labels,
kept as a string since no verified logic inspects it. -/
structure Account where
  id : Str
  name : Str
  type : Str
  initialBalance : Int
  color : Str
deriving DecidableEq, Repr

/-- A transaction (`types.ts`).  `amount` is `none` for a NaN/corrupt amount;
`location` uses `[]` for absent (the code reads it as `location || ''`);
`receiptImage` is carried for completeness but unused by the core logic. -/
structure Transaction where
  id : Str
  date : Str
  amount : Option Int
  type : TransactionType
  category : Str
  description : Str
  location : Str
  accountId : Str
  toAccountId : Option Str
  receiptImage : Option Str := none
  isRecurringInstance : Bool := false
deriving DecidableEq, Repr

/-- A recurring-transaction template (`types.ts`). -/
structure RecurringTransaction where
  id : Str
  frequency : Frequency
  startDate : Str
  nextDueDate : Str
  endDate : Option Str
  lastGenerated : Option Str := none
  amount : Option Int
  type : TransactionType
  category : Str
  description : Str
  location : Str
  accountId : Str
  toAccountId : Option Str
deriving DecidableEq, Repr

/-- JS truthiness of an optional string (`undefined` and `''` are falsy). -/
def optTruthy : Option Str → Bool
  | none => false
  | some s => !s.isEmpty

/-- Category registry entry; only `id` and `name` feed the verified logic. -/
structure CategoryOption where
  id : Str
  name : Str
deriving DecidableEq, Repr

/-- Expense categories (`constants.ts`). -/
def EXPENSE_CATEGORIES : List CategoryOption :=
  [⟨"cat_food".data, "餐飲".data⟩, ⟨"cat_transport".data, "交通".data⟩,
   ⟨"cat_shopping".data, "購物".data⟩, ⟨"cat_bills".data, "帳單".data⟩,
   ⟨"cat_entertainment".data, "娛樂".data⟩, ⟨"cat_health".data, "醫療保健".data⟩,
   ⟨"cat_education".data, "教育".data⟩, ⟨"cat_travel".data, "旅行".data⟩,
   ⟨"cat_other_exp".data, "其他".data⟩]

/-- Income categories (`constants.ts`). -/
def INCOME_CATEGORIES : List CategoryOption :=
  [⟨"cat_salary".data, "薪資".data⟩, ⟨"cat_investment".data, "投資".data⟩,
   ⟨"cat_gift".data, "禮金".data⟩, ⟨"cat_other_inc".data, "其他".data⟩]

/-- Transfer category (`constants.ts`). -/
def TRANSFER_CATEGORY : CategoryOption := ⟨"cat_transfer".data, "轉帳".data⟩

/-- Rotation of colors for synthesized accounts (`App.tsx` lines 14-18). -/
def ACCOUNT_COLORS : List Str :=
  ["bg-orange-500".data, "bg-blue-500".data, "bg-purple-500".data,
   "bg-green-500".data, "bg-red-500".data, "bg-teal-500".data,
   "bg-indigo-500".data, "bg-pink-500".data, "bg-gray-600".data]

/-!  BalanceLedger: `accountBalances` (`App.tsx` lines 285-304).
A JS object is modelled as a finite map `Str → Option (Option Int)`:
outer `none` means the key is absent, inner `none` means the stored
number is NaN (reading an absent key gives `undefined`, and
`undefined ± amt` stores NaN).  -/

/-- A JS object used as a number map. -/
def ObjMap := Str → Option (Option Int)

/-- The empty object `\x7b\x7d`. -/
def emptyObj : ObjMap := fun _ => none

/-- JS property assignment `m[k] = v`. -/
def objSet (m : ObjMap) (k : Str) (v : Option Int) : ObjMap :=
  fun k' => if k' = k then some v else m k'

/-- JS `m[k] += a`: reads `m[k]` (`undefined` when absent, giving NaN) and
writes the sum back. -/
def objAddAt (m : ObjMap) (k : Str) (a : Int) : ObjMap :=
  objSet m k (match m k with
    | some (some v) => some (v + a)
    | some none => none
    | none => none)

/-- JS `m[k] -= a`. -/
def objSubAt (m : ObjMap) (k : Str) (a : Int) : ObjMap :=
  objSet m k (match m k with
    | some (some v) => some (v - a)
    | some none => none
    | none => none)

/-- One iteration of the `transactions.forEach` body of `accountBalances`
(`App.tsx` lines 291-302): NaN amounts are skipped; INCOME credits
`accountId`, EXPENSE debits it, and a TRANSFER with a truthy `toAccountId`
debits `accountId` and credits `toAccountId` (otherwise the transaction is
skipped). -/
def applyTx (m : ObjMap) (tx : Transaction) : ObjMap :=
  match tx.amount with
  | none => m
  | some amt =>
    match tx.type with
    | TransactionType.INCOME => objAddAt m tx.accountId amt
    | TransactionType.EXPENSE => objSubAt m tx.accountId amt
    | TransactionType.TRANSFER =>
      if optTruthy tx.toAccountId then
        objAddAt (objSubAt m tx.accountId amt) (tx.toAccountId.getD []) amt
      else m

/-- Seed of the reduce: each account's balance starts at `initialBalance`
(`App.tsx` lines 286-289). -/
def initBals (accounts : List Account) : ObjMap :=
  accounts.foldl (fun m a => objSet m a.id (some a.initialBalance)) emptyObj

/-- The balance computation `accountBalances` (`App.tsx` lines 285-304). -/
def accountBalances (accounts : List Account) (transactions : List Transaction) : ObjMap :=
  transactions.foldl applyTx (initBals accounts)

/-!  RecurrenceScheduler: the catch-up `useEffect` (`App.tsx` lines 242-283),
per template.  Dates are the `YYYY-MM-DD` strings of the source, compared
with JS string comparison.  -/

/-- Transaction instance emitted for a due template (`App.tsx` lines 256-267).
The random unique id is modelled by a constant; no claim depends on it. -/
def mkInstance (rt : RecurringTransaction) : Transaction :=
  { id := "auto".data,
    date := rt.nextDueDate,
    amount := rt.amount,
    type := rt.type,
    category := rt.category,
    description := rt.description ++ " (自動)".data,
    location := rt.location,
    accountId := rt.accountId,
    toAccountId := rt.toAccountId,
    isRecurringInstance := true }

/-- Loop body's template update (`App.tsx` lines 270-271). -/
def advRt (rt : RecurringTransaction) : RecurringTransaction :=
  { rt with lastGenerated := some rt.nextDueDate,
            nextDueDate := getNextDateStr rt.nextDueDate rt.frequency }

/-- The catch-up `while` loop (`App.tsx` lines 252-274) for one template.
`fuel` stands for `12 - loopCount`; the loop runs while
`nextDueDate <= today && loopCount < 12`, breaking first when
`endDate && nextDueDate > endDate`. -/
def advanceAux (today : Str) : Nat → RecurringTransaction → List Transaction × RecurringTransaction
  | 0, rt => ([], rt)
  | fuel + 1, rt =>
    if jsStrLE rt.nextDueDate today then
      if (match rt.endDate with | some e => jsStrLT e rt.nextDueDate | none => false) then
        ([], rt)
      else
        let res := advanceAux today fuel (advRt rt)
        (mkInstance rt :: res.1, res.2)
    else ([], rt)

/-- One invocation of the catch-up pass on one template: the emitted
instances and the updated template. -/
def advance (today : Str) (rt : RecurringTransaction) : List Transaction × RecurringTransaction :=
  advanceAux today 12 rt

/-- Due date of a template `i` loop iterations in (`nextDueDate` at the
moment the `i`-th instance is emitted). -/
def nthDue (rt : RecurringTransaction) : Nat → Str
  | 0 => rt.nextDueDate
  | i + 1 => getNextDateStr (nthDue rt i) rt.frequency

/-!  ImportReconciler: CSV export (`App.tsx` lines 621-629, `handleExportCSV`)
and CSV import (`App.tsx` lines 725-865, `handleImportCSV`), plus the
spreadsheet-restore row mapping (`part_000` lines 198-238,
`restoreDataFromGoogleSheets`).  -/

/-- All categories, `[...EXPENSE_CATEGORIES, ...INCOME_CATEGORIES, TRANSFER_CATEGORY]`. -/
def allCats : List CategoryOption := EXPENSE_CATEGORIES ++ INCOME_CATEGORIES ++ [TRANSFER_CATEGORY]

/-- Export's type label (`收入` / `支出` / `轉帳`). -/
def typeLabel : TransactionType → Str
  | TransactionType.INCOME => "收入".data
  | TransactionType.EXPENSE => "支出".data
  | TransactionType.TRANSFER => "轉帳".data

/-- Export's category column: registry name, falling back to the raw id. -/
def catNameOf (catId : Str) : Str :=
  match allCats.find? (fun c => c.id == catId) with
  | some c => c.name
  | none => catId

/-- Lookup `accounts.find(a => a.id === id)`. -/
def findById (accounts : List Account) (id : Str) : Option Account :=
  accounts.find? (fun a => a.id == id)

/-- Export's account column `accounts.find(...)?.name || ''`. -/
def accNameOf (accounts : List Account) (id : Str) : Str :=
  match findById accounts id with
  | some a => a.name
  | none => []

/-- Math.round, identity on the integer amounts of the data model; a NaN
amount serialises as the string `NaN`. -/
def amountField (amount : Option Int) : Str :=
  match amount with
  | some v => intToStr v
  | none => "NaN".data

/-- The eight raw column values of one exported row (`App.tsx` lines 624-625). -/
def rowFields (accounts : List Account) (tx : Transaction) : List Str :=
  [tx.date,
   typeLabel tx.type,
   amountField tx.amount,
   catNameOf tx.category,
   tx.description,
   tx.location,
   accNameOf accounts tx.accountId,
   if optTruthy tx.toAccountId then accNameOf accounts (tx.toAccountId.getD []) else []]

/-- Double every quote character (`String(v).replace(/"/g, '""')`). -/
def dq : Str → Str
  | [] => []
  | c :: rest => if c = '"' then '"' :: '"' :: dq rest else c :: dq rest

/-- Field escaping: wrap in double quotes with embedded quotes doubled. -/
def escField (s : Str) : Str := '"' :: dq s ++ ['"']

/-- One exported CSV line. -/
def exportLine (accounts : List Account) (tx : Transaction) : Str :=
  List.intercalate [','] ((rowFields accounts tx).map escField)

/-- The CSV header row (joined unquoted). -/
def headerStr : Str := "日期,類型,金額,分類,備註,地點,帳戶,轉入帳戶".data

/-- The byte-order mark prepended by the export. -/
def bomChar : Char := '﻿'

/-- The full exported CSV text (`App.tsx` line 627):
BOM, then header and rows joined by newlines. -/
def exportCSV (accounts : List Account) (txs : List Transaction) : Str :=
  bomChar :: List.intercalate ['\n'] (headerStr :: txs.map (exportLine accounts))

/-- Import-side category resolution (`App.tsx` lines 771-778): exact name
match, else a type-directed fallback. -/
def getCategoryId (name : Str) (type : TransactionType) : Str :=
  match allCats.find? (fun c => c.name == name) with
  | some c => c.id
  | none =>
    match type with
    | TransactionType.INCOME => "cat_other_inc".data
    | TransactionType.TRANSFER => "cat_transfer".data
    | TransactionType.EXPENSE => "cat_other_exp".data

/-- Import-side account resolution (`App.tsx` lines 754-769): empty names
resolve to the empty id; an exact name match in the growing working list
reuses that account's id; otherwise a fresh account (default type CASH,
zero balance, next color in the rotation) is appended.  The source's
`acc_` + timestamp + random id is modelled by a deterministic fresh id. -/
def getOrCreateAccountId (accs : List Account) (name : Str) : Str × List Account :=
  if name.isEmpty then ([], accs) else
  match accs.find? (fun a => a.name == name) with
  | some a => (a.id, accs)
  | none =>
    let newId := "acc_import_".data ++ natToDigits accs.length
    (newId, accs ++ [{ id := newId, name := name, type := "CASH".data,
                       initialBalance := 0,
                       color := ACCOUNT_COLORS.getD (accs.length % ACCOUNT_COLORS.length) [] }])

/-- Import's date normalisation (`App.tsx` lines 780-794): separators
`_ / .` are mapped to `-`, the result is parsed as a date and re-serialised
as `YYYY-MM-DD`; an unparseable string is returned verbatim. -/
def normalizeDate (s : Str) : Str :=
  let s' := s.map (fun c => if c = '_' ∨ c = '/' ∨ c = '.' then '-' else c)
  match parseISO s' with
  | some dt => formatYMD dt
  | none => s

/-- Import's type-label resolution (`App.tsx` lines 818-820). -/
def parseTypeLabel (raw : Str) : TransactionType :=
  if raw = "收入".data then TransactionType.INCOME
  else if raw = "轉帳".data ∨ raw = "轉入".data ∨ raw = "轉出".data then TransactionType.TRANSFER
  else TransactionType.EXPENSE

/-- The comma-splitting regex `,(?=(?:(?:[^"]*"){2})*[^"]*$)`: split at every
comma followed by an even number of quote characters before the end of the
line. -/
def splitCSVAux : Str → Str → List Str
  | [], acc => [acc.reverse]
  | c :: rest, acc =>
    if c = ',' ∧ rest.count '"' % 2 = 0 then acc.reverse :: splitCSVAux rest []
    else splitCSVAux rest (c :: acc)

/-- Split one CSV line into raw fields. -/
def splitCSV (line : Str) : List Str := splitCSVAux line []

/-- Strip one surrounding quote from each end (`replace(/^"|"$/g, '')`). -/
def dropOuterQuotes (s : Str) : Str :=
  let s1 := match s with
    | '"' :: rest => rest
    | _ => s
  match s1.getLast? with
  | some '"' => s1.dropLast
  | _ => s1

/-- Collapse doubled quotes (`replace(/""/g, '"')`, left-to-right,
non-overlapping). -/
def unDouble : Str → Str
  | '"' :: '"' :: rest => '"' :: unDouble rest
  | c :: rest => c :: unDouble rest
  | [] => []

/-- Per-field cleanup of the import: `v.trim().replace(/^"|"$/g, '').replace(/""/g, '"')`. -/
def cleanField (s : Str) : Str := unDouble (dropOuterQuotes (trimStr s))

/-- Import state: transactions parsed so far and the growing account list. -/
abbrev ImportState := List Transaction × List Account

/-- Processing of one data line of the CSV import (`App.tsx` lines 796-846).
`accounts0` is the component state `accounts` used for the
`accId || accounts[0]?.id` fallback (an absent fallback id is modelled as
the empty string).  The row index in the generated id is irrelevant to every
claim and the id is modelled by a constant. -/
def processLine (accounts0 : List Account) (st : ImportState) (rawLine : Str) : ImportState :=
  let line := trimStr rawLine
  if line.isEmpty then st else
  let row := (splitCSV line).map cleanField
  if row.length < 3 then st else
  let date := normalizeDate (row.getD 0 [])
  let typeRaw := row.getD 1 []
  let amount := parseFloatM (row.getD 2 [])
  let catName := row.getD 3 []
  let desc := row.getD 4 []
  let loc := row.getD 5 []
  let accName := row.getD 6 []
  let toAccName := row.getD 7 []
  match amount with
  | none => st
  | some amt =>
    if date.isEmpty then st else
    let type := parseTypeLabel typeRaw
    let p1 := getOrCreateAccountId st.2 accName
    let accId := p1.1
    let accs1 := p1.2
    let p2 := if type = TransactionType.TRANSFER ∧ ¬toAccName.isEmpty then
                let q := getOrCreateAccountId accs1 toAccName
                (some q.1, q.2)
              else (none, accs1)
    let tx : Transaction :=
      { id := "import".data,
        date := date,
        amount := some amt,
        type := type,
        category := getCategoryId catName type,
        description := desc,
        location := loc,
        accountId := if accId.isEmpty then (match accounts0.head? with
                                            | some a => a.id
                                            | none => []) else accId,
        toAccountId := p2.1 }
    (st.1 ++ [tx], p2.2)

/-- Substring test, JS `hay.includes(needle)`. -/
def containsSub (needle : Str) : Str → Bool
  | [] => needle.isPrefixOf []
  | c :: rest => needle.isPrefixOf (c :: rest) || containsSub needle rest

/-- The CSV import (`App.tsx` lines 725-865): split into lines, strip the
byte-order mark, validate the header (it must mention `日期` and `金額` once
quotes are removed), then process every data line.  `none` models the
source's early return on a bad header; the source applies the resulting
state only when at least one row imported, which does not change the
returned data. -/
def importCSV (accounts : List Account) (text : Str) : Option ImportState :=
  match splitChar '\n' text with
  | [] => none
  | first :: rest =>
    let first := if first.head? = some bomChar then first.tail else first
    let firstClean := first.filter (fun c => c ≠ '"')
    if containsSub "日期".data firstClean && containsSub "金額".data firstClean then
      some (rest.foldl (processLine accounts) ([], accounts))
    else none

/-- Row mapping of the spreadsheet restore (`part_000` lines 200-236,
`restoreDataFromGoogleSheets`): rows shorter than 3 cells are skipped;
otherwise the amount has its comma thousands separators stripped before
`parseFloat`, a NaN amount becoming `0`; account names are stored in the
`accountId`/`toAccountId` fields temporarily (reconciliation happens later
in `App.tsx`).  The random `restored_` id is modelled by a constant. -/
def restoreRow (row : List Str) : Option Transaction :=
  if row.length < 3 then none else
  let date := row.getD 0 []
  let typeLabel := row.getD 1 []
  let amount := parseFloatM ((row.getD 2 []).filter (fun c => c ≠ ','))
  let categoryName := row.getD 3 []
  let description := row.getD 4 []
  let location := row.getD 5 []
  let accountName := row.getD 6 []
  let toAccountName := row.getD 7 []
  let type : TransactionType :=
    if typeLabel = "收入".data then TransactionType.INCOME
    else if typeLabel = "轉帳".data ∨ typeLabel = "轉出".data ∨ typeLabel = "轉入".data then TransactionType.TRANSFER
    else TransactionType.EXPENSE
  some { id := "restored".data,
         date := date,
         type := type,
         amount := some (match amount with | none => 0 | some v => v),
         category := getCategoryId categoryName type,
         description := description,
         location := location,
         accountId := accountName,
         toAccountId := some toAccountName }

/-!  Claim-level predicates and concrete example data.  -/

/-- Per-transaction contribution to an account's balance, worded exactly as
the specification states it: INCOME adds `amount` to `accountId`, EXPENSE
subtracts it, a TRANSFER subtracts `amount` from `accountId` and adds it to
`toAccountId`.  A NaN amount contributes nothing (the spec's defensive-skip
rule). -/
def contribClaim (tx : Transaction) (k : Str) : Int :=
  match tx.amount with
  | none => 0
  | some amt =>
    match tx.type with
    | TransactionType.INCOME => if tx.accountId = k then amt else 0
    | TransactionType.EXPENSE => if tx.accountId = k then -amt else 0
    | TransactionType.TRANSFER =>
      (if tx.accountId = k then -amt else 0) +
      (match tx.toAccountId with
       | some t => if t = k then amt else 0
       | none => 0)

/-- Signed sum of the contributions of a transaction list to account `k`. -/
def sumContrib (txs : List Transaction) (k : Str) : Int :=
  (txs.map (fun tx => contribClaim tx k)).sum

/-- Whether the `forEach` body of `accountBalances` writes key `k` when
processing `tx`. -/
def touchTx (tx : Transaction) (k : Str) : Bool :=
  match tx.amount with
  | none => false
  | some _ =>
    match tx.type with
    | TransactionType.INCOME => tx.accountId == k
    | TransactionType.EXPENSE => tx.accountId == k
    | TransactionType.TRANSFER =>
      optTruthy tx.toAccountId && (tx.accountId == k || tx.toAccountId.getD [] == k)

/-- Well-formedness of a transaction as the data model requires it for the
balance formula: a TRANSFER carries a truthy `toAccountId`. -/
def WFtx (tx : Transaction) : Prop :=
  tx.type = TransactionType.TRANSFER → optTruthy tx.toAccountId = true

instance : DecidablePred WFtx := fun tx => by unfold WFtx; infer_instance

/-- Absence of the line separator from a field (a CSV line cannot carry an
embedded newline). -/
def noNL (s : Str) : Prop := '\n' ∉ s

instance : DecidablePred noNL := fun s => by unfold noNL; infer_instance

/-- Hypotheses under which one transaction survives the CSV round trip:
a valid ISO date with four-digit year, a non-negative integer amount,
no embedded newlines in the text columns, a resolvable account with a
non-empty name, and a `toAccountId` present exactly for transfers and
then resolvable as well. -/
def RowOK (origAccounts : List Account) (tx : Transaction) : Prop :=
  (∃ dt, Valid4 dt ∧ tx.date = formatYMD dt)
  ∧ (∃ n : Nat, tx.amount = some ((n : Int)))
  ∧ noNL tx.description ∧ noNL tx.location ∧ noNL (catNameOf tx.category)
  ∧ (∃ a, findById origAccounts tx.accountId = some a ∧ a.name ≠ [] ∧ noNL a.name)
  ∧ ((tx.toAccountId = none ∧ tx.type ≠ TransactionType.TRANSFER)
     ∨ (∃ t b, tx.toAccountId = some t ∧ t ≠ [] ∧ tx.type = TransactionType.TRANSFER
         ∧ findById origAccounts t = some b ∧ b.name ≠ [] ∧ noNL b.name))

/-- What the round-trip claim asserts of one re-imported transaction `n`
against its original `o`: the five data columns are identical, and the
account ids on `n` belong to accounts (in the post-import account list)
bearing the same names the original ids resolved to. -/
def FieldMatch (origAccounts : List Account) (o n : Transaction) (accs : List Account) : Prop :=
  n.date = o.date ∧ n.amount = o.amount ∧ n.type = o.type
  ∧ n.description = o.description ∧ n.location = o.location
  ∧ (∃ a ∈ accs, a.id = n.accountId
       ∧ ∃ oa, findById origAccounts o.accountId = some oa ∧ a.name = oa.name)
  ∧ (∀ t, o.toAccountId = some t →
      ∃ b ∈ accs, n.toAccountId = some b.id
       ∧ ∃ ob, findById origAccounts t = some ob ∧ b.name = ob.name)

/-- Concrete account for the C2 counterexample. -/
def c2Account : Account :=
  { id := "a1".data, name := "現金".data, type := "CASH".data, initialBalance := 2000, color := "c".data }

/-- Concrete destination-less transfer for the C2 counterexample. -/
def c2Tx : Transaction :=
  { id := "t1".data, date := "2024-01-02".data, amount := some 500,
    type := TransactionType.TRANSFER, category := "cat_transfer".data,
    description := "d".data, location := [], accountId := "a1".data, toAccountId := none }

/-- Long-overdue daily template used to exercise the 12-iteration cap. -/
def c3Rt : RecurringTransaction :=
  { id := "r1".data, frequency := Frequency.DAILY, startDate := "2020-01-01".data,
    nextDueDate := "2020-01-01".data, endDate := none, amount := some 100,
    type := TransactionType.EXPENSE, category := "cat_bills".data,
    description := "房租".data, location := [], accountId := "a1".data, toAccountId := none }

/-- Long-overdue daily template for the C4 counterexample (the cap breaks
per-day idempotence). -/
def c4Rt : RecurringTransaction :=
  { id := "r2".data, frequency := Frequency.DAILY, startDate := "2020-01-01".data,
    nextDueDate := "2020-01-01".data, endDate := none, amount := some 50,
    type := TransactionType.EXPENSE, category := "cat_bills".data,
    description := "訂閱".data, location := [], accountId := "a1".data, toAccountId := none }

/-- Mildly overdue template for the C4 witness (three catch-up instances,
below the cap). -/
def c4RtSmall : RecurringTransaction :=
  { id := "r3".data, frequency := Frequency.DAILY, startDate := "2024-01-01".data,
    nextDueDate := "2024-01-01".data, endDate := none, amount := some 50,
    type := TransactionType.EXPENSE, category := "cat_bills".data,
    description := "訂閱".data, location := [], accountId := "a1".data, toAccountId := none }

/-- Template already past its end date, for the C5 witness. -/
def c5Rt : RecurringTransaction :=
  { id := "r4".data, frequency := Frequency.MONTHLY, startDate := "2023-01-15".data,
    nextDueDate := "2024-07-15".data, endDate := some "2024-06-30".data, amount := some 900,
    type := TransactionType.EXPENSE, category := "cat_bills".data,
    description := "保險".data, location := [], accountId := "a1".data, toAccountId := none }

/-- Weekly template for the C10 witness. -/
def c10Rt : RecurringTransaction :=
  { id := "r5".data, frequency := Frequency.WEEKLY, startDate := "2024-05-01".data,
    nextDueDate := "2024-05-01".data, endDate := none, amount := some 120,
    type := TransactionType.INCOME, category := "cat_salary".data,
    description := "零用金".data, location := "台北".data, accountId := "a1".data, toAccountId := none }

/-- Existing account list for the C9 witness. -/
def c9Accounts : List Account :=
  [{ id := "acc_1".data, name := "現金錢包".data, type := "CASH".data, initialBalance := 2000, color := "bg-orange-500".data }]

/-- CSV text whose single data row carries the amount `1,234`, for the C8
counterexample. -/
def c8Text : Str :=
  bomChar :: (headerStr ++ '\n' :: "\"2024-01-02\",\"支出\",\"1,234\",\"分類\",\"備\",\"\",\"甲\",\"\"".data)

/-- Accounts exported in the C7 witness. -/
def c7Accounts : List Account :=
  [{ id := "a1".data, name := "現金".data, type := "CASH".data, initialBalance := 2000, color := "c1".data },
   { id := "a2".data, name := "銀行".data, type := "BANK".data, initialBalance := 150000, color := "c2".data }]

/-- Transaction exported and re-imported in the C7 witness. -/
def c7Tx : Transaction :=
  { id := "t7".data, date := "2024-01-03".data, amount := some 1000,
    type := TransactionType.TRANSFER, category := "cat_transfer".data,
    description := "轉存, \"備註\"".data, location := "台北".data,
    accountId := "a1".data, toAccountId := some "a2".data }

/-- Data line with a thousands-separator amount that fails to parse, for the C8 witness. -/
def c8BadLine : Str := "\"2024-01-02\",\"支出\",\"abc\",\"x\",\"d\",\"l\",\"甲\",\"\"".data

/-- Accounts of the specification example, used by the C1 witness. -/
def c1Accounts : List Account :=
  [{ id := "a1".data, name := "現金錢包".data, type := "CASH".data, initialBalance := 2000, color := "c1".data },
   { id := "a2".data, name := "銀行帳戶".data, type := "BANK".data, initialBalance := 150000, color := "c2".data }]

def c1TxE : Transaction :=
  { id := "t1".data, date := "2024-01-02".data, amount := some 500,
    type := TransactionType.EXPENSE, category := "cat_food".data,
    description := "d1".data, location := [], accountId := "a1".data, toAccountId := none }

def c1TxT : Transaction :=
  { id := "t2".data, date := "2024-01-03".data, amount := some 1000,
    type := TransactionType.TRANSFER, category := "cat_transfer".data,
    description := "d2".data, location := [], accountId := "a1".data, toAccountId := some "a2".data }

/-!  Theorems.  -/

/-- Skipped transfer: a TRANSFER without a truthy destination leaves the
balance object untouched. -/
theorem applyTx_skip (m : ObjMap) (tx : Transaction)
    (h1 : tx.type = TransactionType.TRANSFER) (h2 : optTruthy tx.toAccountId = false) :
    applyTx m tx = m := by
  unfold applyTx
  cases tx.amount with
  | none => rfl
  | some amt => rw [h1]; simp [h2]

/-- C2 counterexample: at a concrete account with initial balance 2000 and a
TRANSFER of 500 whose `toAccountId` is absent, the computed balance of the
source account is unchanged (2000), not debited to 1500 as the claim states. -/
theorem claim2_counterexample :
    accountBalances [c2Account] [c2Tx] "a1".data = some (some 2000) ∧ (2000 : Int) ≠ 2000 - 500 := by
  constructor
  · rfl
  · decide

/-- C2 (amended): a TRANSFER whose `toAccountId` is absent (or empty) is
skipped entirely by the balance computation — it neither debits the source
nor credits any destination (a no-op on both sides, without crashing). -/
theorem claim2_amended (accounts : List Account) (pre post : List Transaction) (tx : Transaction)
    (h1 : tx.type = TransactionType.TRANSFER) (h2 : optTruthy tx.toAccountId = false) :
    accountBalances accounts (pre ++ tx :: post) = accountBalances accounts (pre ++ post) := by
  unfold accountBalances
  rw [List.foldl_append, List.foldl_append, List.foldl_cons, applyTx_skip _ _ h1 h2]

/-- C2 witness: the amended theorem applied to the concrete destination-less
transfer. -/
theorem claim2_witness :
    accountBalances [c2Account] ([] ++ c2Tx :: []) = accountBalances [c2Account] ([] ++ []) :=
  claim2_amended [c2Account] [] [] c2Tx rfl rfl

theorem advanceAux_length_le (today : Str) (fuel : Nat) :
    ∀ rt, (advanceAux today fuel rt).1.length ≤ fuel := by
  induction fuel with
  | zero => intro rt; simp [advanceAux]
  | succ f ih =>
    intro rt
    simp only [advanceAux]
    split
    · split
      · simp
      · have := ih (advRt rt)
        simp only [List.length_cons]
        omega
    · simp

/-- C3: one invocation of the catch-up pass emits at most 12 instances for
any template and any today (and the total function terminates), and for a
concrete daily template four years overdue, exactly 12 instances are emitted
with the advanced `nextDueDate` still ≤ today (a further invocation would be
needed) rather than any error. -/
theorem claim3 :
    (∀ today rt, (advance today rt).1.length ≤ 12)
    ∧ (advance "2024-01-01".data c3Rt).1.length = 12
    ∧ jsStrLE (advance "2024-01-01".data c3Rt).2.nextDueDate "2024-01-01".data = true :=
  ⟨fun today rt => advanceAux_length_le today 12 rt, by decide, by decide⟩

/-- C5: a template whose `nextDueDate` is already past its `endDate` is
dormant — the catch-up pass emits no instances and leaves the template
unchanged, for every `today`; since the template is returned unchanged, the
same holds on every subsequent invocation. -/
theorem claim5 (today : Str) (rt : RecurringTransaction) (e : Str)
    (h1 : rt.endDate = some e) (h2 : jsStrLT e rt.nextDueDate = true) :
    advance today rt = ([], rt) := by
  unfold advance
  show advanceAux today (11 + 1) rt = ([], rt)
  simp only [advanceAux]
  rw [h1]
  simp [h2]

/-- C5 witness: a concrete monthly template past its June 2024 end date. -/
theorem claim5_witness : advance "2024-12-31".data c5Rt = ([], c5Rt) :=
  claim5 "2024-12-31".data c5Rt "2024-06-30".data rfl (by decide)

theorem advanceAux_stuck (today : Str) (fuel : Nat) :
    ∀ rt, (advanceAux today fuel rt).1.length < fuel →
    ∀ fuel2, advanceAux today fuel2 (advanceAux today fuel rt).2 = ([], (advanceAux today fuel rt).2) := by
  induction fuel with
  | zero => intro rt h; omega
  | succ f ih =>
    intro rt h fuel2
    by_cases hle : jsStrLE rt.nextDueDate today
    · by_cases hend : (match rt.endDate with | some e => jsStrLT e rt.nextDueDate | none => false) = true
      · have hres : advanceAux today (f + 1) rt = ([], rt) := by
          simp only [advanceAux]; rw [if_pos hle, if_pos hend]
        rw [hres]
        cases fuel2 with
        | zero => rfl
        | succ f2 => simp only [advanceAux]; rw [if_pos hle, if_pos hend]
      · have hres : advanceAux today (f + 1) rt =
            (mkInstance rt :: (advanceAux today f (advRt rt)).1, (advanceAux today f (advRt rt)).2) := by
          simp only [advanceAux]; rw [if_pos hle, if_neg hend]
        rw [hres] at h ⊢
        simp only [List.length_cons] at h
        exact ih (advRt rt) (by omega) fuel2
    · have hres : advanceAux today (f + 1) rt = ([], rt) := by
        simp only [advanceAux]; rw [if_neg hle]
      rw [hres]
      cases fuel2 with
      | zero => rfl
      | succ f2 => simp only [advanceAux]; rw [if_neg hle]

/-- C4 counterexample: for a daily template four years overdue, the first
capped invocation leaves `nextDueDate` ≤ today, and a second invocation with
the same today emits 12 further instances — not zero as the claim states. -/
theorem claim4_counterexample :
    (advance "2024-01-01".data (advance "2024-01-01".data c4Rt).2).1.length = 12 ∧ (12 : Nat) ≠ 0 :=
  ⟨by decide, by decide⟩

/-- C4 (amended): the catch-up pass is idempotent per calendar day provided
the first invocation did not hit the 12-iteration cap: whenever the first run
emits fewer than 12 instances, rerunning with the same today emits zero
instances and leaves the template unchanged. -/
theorem claim4_amended (today : Str) (rt : RecurringTransaction)
    (h : (advance today rt).1.length < 12) :
    advance today (advance today rt).2 = ([], (advance today rt).2) :=
  advanceAux_stuck today 12 rt h 12

/-- C4 witness: a template three days overdue (3 < 12 instances); the second
run is a no-op. -/
theorem claim4_witness :
    (advance "2024-01-03".data c4RtSmall).1.length < 12
    ∧ advance "2024-01-03".data (advance "2024-01-03".data c4RtSmall).2
        = ([], (advance "2024-01-03".data c4RtSmall).2) :=
  ⟨by decide, claim4_amended "2024-01-03".data c4RtSmall (by decide)⟩

theorem iterate_advRt_fields (rt : RecurringTransaction) (i : Nat) :
    (advRt^[i] rt).amount = rt.amount ∧ (advRt^[i] rt).type = rt.type
    ∧ (advRt^[i] rt).category = rt.category ∧ (advRt^[i] rt).description = rt.description
    ∧ (advRt^[i] rt).location = rt.location ∧ (advRt^[i] rt).accountId = rt.accountId
    ∧ (advRt^[i] rt).toAccountId = rt.toAccountId ∧ (advRt^[i] rt).frequency = rt.frequency
    ∧ (advRt^[i] rt).nextDueDate = nthDue rt i := by
  induction i with
  | zero => simp [nthDue]
  | succ n ih =>
    obtain ⟨h1, h2, h3, h4, h5, h6, h7, h8, h9⟩ := ih
    rw [Function.iterate_succ_apply']
    refine ⟨h1, h2, h3, h4, h5, h6, h7, h8, ?_⟩
    show (advRt (advRt^[n] rt)).nextDueDate = nthDue rt (n + 1)
    simp [advRt, nthDue, h8, h9]

theorem advanceAux_getElem (today : Str) (fuel : Nat) :
    ∀ rt i, i < (advanceAux today fuel rt).1.length →
      (advanceAux today fuel rt).1[i]? = some (mkInstance (advRt^[i] rt)) := by
  induction fuel with
  | zero => intro rt i h; simp [advanceAux] at h
  | succ f ih =>
    intro rt i h
    by_cases hle : jsStrLE rt.nextDueDate today
    · by_cases hend : (match rt.endDate with | some e => jsStrLT e rt.nextDueDate | none => false) = true
      · exfalso
        have hres : advanceAux today (f + 1) rt = ([], rt) := by
          simp only [advanceAux]; rw [if_pos hle, if_pos hend]
        rw [hres] at h
        simp at h
      · have hres : advanceAux today (f + 1) rt =
            (mkInstance rt :: (advanceAux today f (advRt rt)).1, (advanceAux today f (advRt rt)).2) := by
          simp only [advanceAux]; rw [if_pos hle, if_neg hend]
        rw [hres] at h ⊢
        cases i with
        | zero => simp
        | succ n =>
          simp only [List.length_cons] at h
          simp only [List.getElem?_cons_succ]
          rw [ih (advRt rt) n (by omega)]
          rw [← Function.iterate_succ_apply]
    · exfalso
      have hres : advanceAux today (f + 1) rt = ([], rt) := by
        simp only [advanceAux]; rw [if_neg hle]
      rw [hres] at h
      simp at h

/-- C10: every instance emitted by the catch-up pass has
`isRecurringInstance = true`, is dated with the template's `nextDueDate` at
the moment of emission (the i-th emitted instance carries the i-th due date),
copies the template's amount, type, category, location, accountId and
toAccountId, and its description is the template's description with the
suffix ` (自動)` appended — in particular not a verbatim copy. -/
theorem claim10 (today : Str) (rt : RecurringTransaction) (i : Nat)
    (h : i < (advance today rt).1.length) :
    ∃ tx, (advance today rt).1[i]? = some tx
      ∧ tx.isRecurringInstance = true
      ∧ tx.date = nthDue rt i
      ∧ tx.amount = rt.amount ∧ tx.type = rt.type ∧ tx.category = rt.category
      ∧ tx.location = rt.location ∧ tx.accountId = rt.accountId
      ∧ tx.toAccountId = rt.toAccountId
      ∧ tx.description = rt.description ++ " (自動)".data
      ∧ tx.description ≠ rt.description := by
  obtain ⟨h1, h2, h3, h4, h5, h6, h7, h8, h9⟩ := iterate_advRt_fields rt i
  refine ⟨mkInstance (advRt^[i] rt), advanceAux_getElem today 12 rt i h, rfl, ?_, ?_, ?_, ?_, ?_, ?_, ?_, ?_, ?_⟩
  · exact h9
  · exact h1
  · exact h2
  · exact h3
  · exact h5
  · exact h6
  · exact h7
  · show (advRt^[i] rt).description ++ " (自動)".data = rt.description ++ " (自動)".data
    rw [h4]
  · show (advRt^[i] rt).description ++ " (自動)".data ≠ rt.description
    rw [h4]
    intro heq
    have hlen := congrArg List.length heq
    rw [List.length_append] at hlen
    simp at hlen

/-- C10 witness: the first instance of a weekly template, checked at a
concrete today. -/
theorem claim10_witness :
    0 < (advance "2024-05-02".data c10Rt).1.length
    ∧ ∃ tx, (advance "2024-05-02".data c10Rt).1[0]? = some tx
      ∧ tx.isRecurringInstance = true
      ∧ tx.date = nthDue c10Rt 0
      ∧ tx.amount = c10Rt.amount ∧ tx.type = c10Rt.type ∧ tx.category = c10Rt.category
      ∧ tx.location = c10Rt.location ∧ tx.accountId = c10Rt.accountId
      ∧ tx.toAccountId = c10Rt.toAccountId
      ∧ tx.description = c10Rt.description ++ " (自動)".data
      ∧ tx.description ≠ c10Rt.description :=
  ⟨by decide, claim10 "2024-05-02".data c10Rt 0 (by decide)⟩

theorem daysInMonth_bounds (y : Int) (m : Nat) :
    28 ≤ daysInMonth y m ∧ daysInMonth y m ≤ 31 := by
  rcases m with _|_|_|_|_|_|_|_|_|_|_|m <;>
    first
    | (simp only [daysInMonth]; split <;> omega)
    | (simp only [daysInMonth]; omega)

theorem carryDay_spec (y : Int) (m : Nat) (d : Nat) (hm : m ≤ 11) (hd1 : 1 ≤ d) (hd2 : d ≤ 31) :
    (d ≤ daysInMonth y m ∧ carryDay y m d = ⟨y, m, d⟩)
    ∨ (daysInMonth y m < d
        ∧ carryDay y m d = ⟨y + (((m + 1) / 12 : Nat) : Int), (m + 1) % 12, d - daysInMonth y m⟩
        ∧ 1 ≤ d - daysInMonth y m ∧ d - daysInMonth y m ≤ 3) := by
  have hb := daysInMonth_bounds y m
  unfold carryDay normMonth
  split
  · rename_i hover
    right
    exact ⟨by omega, rfl, by omega, by omega⟩
  · rename_i hnover
    left
    exact ⟨by omega, rfl⟩

theorem stepMonth_spec (dt : YMD) (h : ValidYMD dt) :
    ((stepMonth dt).m = (dt.m + 1) % 12 ∧ (stepMonth dt).d = dt.d ∧ ValidYMD (stepMonth dt))
    ∨ ((stepMonth dt).m = (dt.m + 2) % 12 ∧ 1 ≤ (stepMonth dt).d ∧ (stepMonth dt).d ≤ 3
        ∧ ValidYMD (stepMonth dt)) := by
  obtain ⟨hm, hd1, hd2⟩ := h
  have hb0 := daysInMonth_bounds dt.y dt.m
  have hstep : stepMonth dt
      = carryDay (dt.y + (((dt.m + 1) / 12 : Nat) : Int)) ((dt.m + 1) % 12) dt.d := rfl
  rcases carryDay_spec (dt.y + (((dt.m + 1) / 12 : Nat) : Int)) ((dt.m + 1) % 12) dt.d
      (by omega) hd1 (by omega) with ⟨hle, heq⟩ | ⟨hlt, heq, hge1, hle3⟩
  · left
    rw [hstep, heq]
    refine ⟨rfl, rfl, ?_, hd1, ?_⟩
    · show (dt.m + 1) % 12 ≤ 11
      omega
    · exact hle
  · right
    rw [hstep, heq]
    have hb1 := daysInMonth_bounds
      (dt.y + (((dt.m + 1) / 12 : Nat) : Int) + ((((dt.m + 1) % 12 + 1) / 12 : Nat) : Int))
      (((dt.m + 1) % 12 + 1) % 12)
    refine ⟨?_, hge1, hle3, ?_, hge1, ?_⟩
    · show ((dt.m + 1) % 12 + 1) % 12 = (dt.m + 2) % 12
      omega
    · show ((dt.m + 1) % 12 + 1) % 12 ≤ 11
      omega
    · show dt.d - daysInMonth (dt.y + (((dt.m + 1) / 12 : Nat) : Int)) ((dt.m + 1) % 12)
        ≤ daysInMonth (dt.y + (((dt.m + 1) / 12 : Nat) : Int) + ((((dt.m + 1) % 12 + 1) / 12 : Nat) : Int))
            (((dt.m + 1) % 12 + 1) % 12)
      omega

theorem stepMonth_exact (dt : YMD) (h : ValidYMD dt) (hd : dt.d ≤ 28) :
    (stepMonth dt).m = (dt.m + 1) % 12 ∧ (stepMonth dt).d = dt.d ∧ ValidYMD (stepMonth dt) := by
  obtain ⟨hm, hd1, hd2⟩ := h
  have hstep : stepMonth dt
      = carryDay (dt.y + (((dt.m + 1) / 12 : Nat) : Int)) ((dt.m + 1) % 12) dt.d := rfl
  have hb1 := daysInMonth_bounds (dt.y + (((dt.m + 1) / 12 : Nat) : Int)) ((dt.m + 1) % 12)
  rcases carryDay_spec (dt.y + (((dt.m + 1) / 12 : Nat) : Int)) ((dt.m + 1) % 12) dt.d
      (by omega) hd1 (by omega) with ⟨hle, heq⟩ | ⟨hlt, heq, hge1, hle3⟩
  · rw [hstep, heq]
    refine ⟨rfl, rfl, ?_, hd1, hle⟩
    show (dt.m + 1) % 12 ≤ 11
    omega
  · omega

theorem parity_flip (m : Nat) (h : m ≤ 11) : ((m + 1) % 12 + 1) % 2 = 1 - (m + 1) % 2 := by
  interval_cases m <;> decide

theorem parity_keep (m : Nat) (h : m ≤ 11) : ((m + 2) % 12 + 1) % 2 = (m + 1) % 2 := by
  interval_cases m <;> decide

theorem biLoop_succ (f : Nat) (want : Bool) (dt : YMD) :
    biLoop (f + 1) want dt
      = if (decide ((dt.m + 1) % 2 = 1)) == want then dt else biLoop f want (stepMonth dt) := rfl

theorem biLoop_parity (want : Bool) (dt : YMD) (h : ValidYMD dt) (k : Nat) :
    decide (((biLoop (k + 3) want dt).m + 1) % 2 = 1) = want := by
  by_cases c0 : ((decide ((dt.m + 1) % 2 = 1)) == want) = true
  · have e0 : biLoop (k + 3) want dt = dt := by
      show biLoop ((k + 2) + 1) want dt = dt
      rw [biLoop_succ, if_pos c0]
    rw [e0]
    exact eq_of_beq c0
  · have e0 : biLoop (k + 3) want dt = biLoop (k + 2) want (stepMonth dt) := by
      show biLoop ((k + 2) + 1) want dt = _
      rw [biLoop_succ, if_neg c0]
    rcases stepMonth_spec dt h with ⟨hm1, _, hv1⟩ | ⟨hm1, _, hd3, hv1⟩
    · have c1 : ((decide (((stepMonth dt).m + 1) % 2 = 1)) == want) = true := by
        rw [hm1, parity_flip dt.m h.1]
        revert c0
        cases want <;> simp <;> omega
      have e1 : biLoop (k + 2) want (stepMonth dt) = stepMonth dt := by
        show biLoop ((k + 1) + 1) want _ = _
        rw [biLoop_succ, if_pos c1]
      rw [e0, e1]
      exact eq_of_beq c1
    · have c1 : ¬(((decide (((stepMonth dt).m + 1) % 2 = 1)) == want) = true) := by
        rw [hm1, parity_keep dt.m h.1]
        exact c0
      have e1 : biLoop (k + 2) want (stepMonth dt)
          = biLoop (k + 1) want (stepMonth (stepMonth dt)) := by
        show biLoop ((k + 1) + 1) want _ = _
        rw [biLoop_succ, if_neg c1]
      obtain ⟨hm2, _, _⟩ := stepMonth_exact (stepMonth dt) hv1 (by omega)
      have c2 : ((decide (((stepMonth (stepMonth dt)).m + 1) % 2 = 1)) == want) = true := by
        rw [hm2, hm1, parity_flip ((dt.m + 2) % 12) (by omega), parity_keep dt.m h.1]
        revert c0
        cases want <;> simp <;> omega
      have e2 : biLoop (k + 1) want (stepMonth (stepMonth dt)) = stepMonth (stepMonth dt) := by
        rw [biLoop_succ, if_pos c2]
      rw [e0, e1, e2]
      exact eq_of_beq c2

/-- C6: stepping any valid calendar date with BI_MONTHLY_ODD yields a date
whose 1-based month number is odd, stepping with BI_MONTHLY_EVEN yields an
even month number (the parity loop steps +1 month until the parity matches),
and in particular a February date (`m = 1`, month number 2) steps to an odd
month — never April or June. -/
theorem claim6 (dt : YMD) (h : ValidYMD dt) :
    ((stepYMD dt Frequency.BI_MONTHLY_ODD).m + 1) % 2 = 1
    ∧ ((stepYMD dt Frequency.BI_MONTHLY_EVEN).m + 1) % 2 = 0
    ∧ (dt.m = 1 → ((stepYMD dt Frequency.BI_MONTHLY_ODD).m + 1) % 2 = 1) := by
  have hv1 : ValidYMD (stepMonth dt) := by
    rcases stepMonth_spec dt h with ⟨_, _, hv⟩ | ⟨_, _, _, hv⟩ <;> exact hv
  have hodd : decide (((biLoop 24 true (stepMonth dt)).m + 1) % 2 = 1) = true :=
    biLoop_parity true (stepMonth dt) hv1 21
  have heven : decide (((biLoop 24 false (stepMonth dt)).m + 1) % 2 = 1) = false :=
    biLoop_parity false (stepMonth dt) hv1 21
  refine ⟨?_, ?_, fun _ => ?_⟩
  · show ((biLoop 24 true (stepMonth dt)).m + 1) % 2 = 1
    exact of_decide_eq_true hodd
  · show ((biLoop 24 false (stepMonth dt)).m + 1) % 2 = 0
    have := of_decide_eq_false heven
    omega
  · show ((biLoop 24 true (stepMonth dt)).m + 1) % 2 = 1
    exact of_decide_eq_true hodd

/-- C6 witness: stepping a valid date in February 2024. -/
theorem claim6_witness :
    ValidYMD ⟨2024, 1, 15⟩
    ∧ ((stepYMD ⟨2024, 1, 15⟩ Frequency.BI_MONTHLY_ODD).m + 1) % 2 = 1
    ∧ ((stepYMD ⟨2024, 1, 15⟩ Frequency.BI_MONTHLY_EVEN).m + 1) % 2 = 0
    ∧ ((2024 : Int) = 2024 → ((stepYMD ⟨2024, 1, 15⟩ Frequency.BI_MONTHLY_ODD).m + 1) % 2 = 1) := by
  refine ⟨by decide, ?_, ?_, fun _ => ?_⟩
  · exact (claim6 ⟨2024, 1, 15⟩ (by decide)).1
  · exact (claim6 ⟨2024, 1, 15⟩ (by decide)).2.1
  · exact (claim6 ⟨2024, 1, 15⟩ (by decide)).1

theorem contrib_zero_of_not_touch (tx : Transaction) (k : Str) (hwf : WFtx tx)
    (h : touchTx tx k = false) : contribClaim tx k = 0 := by
  unfold touchTx at h
  unfold contribClaim
  cases htxa : tx.amount with
  | none => rfl
  | some amt =>
    rw [htxa] at h
    cases htxt : tx.type with
    | INCOME =>
      rw [htxt] at h
      simp only [beq_eq_false_iff_ne, ne_eq] at h
      simp [h]
    | EXPENSE =>
      rw [htxt] at h
      simp only [beq_eq_false_iff_ne, ne_eq] at h
      simp [h]
    | TRANSFER =>
      rw [htxt] at h
      have htr : optTruthy tx.toAccountId = true := hwf htxt
      rw [htr] at h
      simp only [Bool.true_and, Bool.or_eq_false_iff, beq_eq_false_iff_ne, ne_eq] at h
      obtain ⟨h1, h2⟩ := h
      cases hto : tx.toAccountId with
      | none => simp [h1]
      | some t =>
        rw [hto] at h2
        simp only [Option.getD_some] at h2
        simp [h1, h2]

theorem applyTx_at (m : ObjMap) (tx : Transaction) (k : Str) (hwf : WFtx tx) :
    applyTx m tx k =
      if touchTx tx k = true then
        some (match m k with
              | some (some v) => some (v + contribClaim tx k)
              | some none => none
              | none => none)
      else m k := by
  unfold applyTx touchTx contribClaim
  cases htxa : tx.amount with
  | none => simp
  | some amt =>
    cases htxt : tx.type with
    | INCOME =>
      by_cases hk : tx.accountId = k
      · subst hk
        simp only [beq_self_eq_true, if_pos]
        unfold objAddAt objSet
        simp
      · have hk' : ¬(k = tx.accountId) := fun hh => hk hh.symm
        simp only [beq_eq_false_iff_ne, ne_eq]
        rw [if_neg (by simpa using hk)]
        unfold objAddAt objSet
        simp [hk']
    | EXPENSE =>
      by_cases hk : tx.accountId = k
      · subst hk
        simp only [beq_self_eq_true, if_pos]
        unfold objSubAt objSet
        simp only [if_pos rfl]
        cases hmk : m tx.accountId with
        | none => rfl
        | some o =>
          cases o with
          | none => rfl
          | some v => simp [Int.sub_eq_add_neg]
      · have hk' : ¬(k = tx.accountId) := fun hh => hk hh.symm
        rw [if_neg (by simpa using hk)]
        unfold objSubAt objSet
        simp [hk']
    | TRANSFER =>
      have htr : optTruthy tx.toAccountId = true := hwf htxt
      rw [htr]
      cases hto : tx.toAccountId with
      | none => rw [hto] at htr; simp [optTruthy] at htr
      | some t =>
        simp only [Option.getD_some, Bool.true_and]
        show objAddAt (objSubAt m tx.accountId amt) t amt k = _
        unfold objAddAt objSubAt objSet
        by_cases hk1 : tx.accountId = k <;> by_cases hk2 : t = k
        · -- both legs write k
          have hkt : k = t := hk2.symm
          have htA : t = tx.accountId := hk2.trans hk1.symm
          rw [if_pos hkt, if_pos htA, hk1, if_pos (by simp)]
          cases hmk : m k with
          | none => rfl
          | some o =>
            cases o with
            | none => rfl
            | some v =>
              simp only [Option.some.injEq]
              simp [hk2]
              try omega
        · -- only the source leg writes k
          have hkt : ¬(k = t) := fun hh => hk2 hh.symm
          have hkA : k = tx.accountId := hk1.symm
          rw [if_neg hkt, if_pos hkA, hk1, if_pos (by simp)]
          cases hmk : m k with
          | none => rfl
          | some o =>
            cases o with
            | none => rfl
            | some v =>
              simp only [Option.some.injEq]
              simp [hk2]
              try omega
        · -- only the destination leg writes k
          have hkt : k = t := hk2.symm
          have htA : ¬(t = tx.accountId) := fun hh => hk1 (hh.symm.trans hk2)
          rw [if_pos hkt, if_neg htA, hk2, if_pos (by simp)]
          cases hmk : m k with
          | none => rfl
          | some o =>
            cases o with
            | none => rfl
            | some v =>
              simp only [Option.some.injEq]
              simp [hk1]
              try omega
        · -- neither leg writes k
          have hkt : ¬(k = t) := fun hh => hk2 hh.symm
          have hkA : ¬(k = tx.accountId) := fun hh => hk1 hh.symm
          rw [if_neg hkt, if_neg hkA, if_neg (by simp [hk1, hk2])]

theorem balances_foldl_at (k : Str) :
    ∀ (txs : List Transaction) (m : ObjMap), (∀ tx ∈ txs, WFtx tx) →
    (txs.foldl applyTx m) k =
      match m k with
      | some (some v) => some (some (v + sumContrib txs k))
      | some none => some none
      | none => if txs.any (fun tx => touchTx tx k) then some none else none := by
  intro txs
  induction txs with
  | nil =>
    intro m _
    simp only [List.foldl_nil, List.any_nil, if_neg]
    cases hmk : m k with
    | none => simp
    | some o =>
      cases o with
      | none => rfl
      | some v => simp [sumContrib]
  | cons t ts ih =>
    intro m hwf
    have hwft : WFtx t := hwf t (by simp)
    have hwfts : ∀ tx ∈ ts, WFtx tx := fun tx htx => hwf tx (by simp [htx])
    simp only [List.foldl_cons]
    rw [ih (applyTx m t) hwfts]
    have hsum : sumContrib (t :: ts) k = contribClaim t k + sumContrib ts k := by
      simp [sumContrib]
    rw [applyTx_at m t k hwft]
    by_cases htouch : touchTx t k = true
    · rw [if_pos htouch]
      cases hmk : m k with
      | none =>
        simp only [List.any_cons, htouch, Bool.true_or, if_pos]
      | some o =>
        cases o with
        | none => rfl
        | some v =>
          simp only [hsum]
          congr 2
          omega
    · rw [if_neg htouch]
      have hc0 : contribClaim t k = 0 :=
        contrib_zero_of_not_touch t k hwft (by revert htouch; cases touchTx t k <;> simp)
      have hany : (t :: ts).any (fun tx => touchTx tx k) = ts.any (fun tx => touchTx tx k) := by
        simp only [List.any_cons]
        revert htouch
        cases touchTx t k <;> simp
      rw [hsum, hc0, hany]
      cases hmk : m k with
      | none => rfl
      | some o =>
        cases o with
        | none => rfl
        | some v => simp

theorem foldl_objSet_not_mem (k : Str) :
    ∀ (accs : List Account) (m : ObjMap), (∀ a ∈ accs, a.id ≠ k) →
    (accs.foldl (fun m a => objSet m a.id (some a.initialBalance)) m) k = m k := by
  intro accs
  induction accs with
  | nil => intro m _; rfl
  | cons b rest ih =>
    intro m h
    simp only [List.foldl_cons]
    rw [ih _ (fun a ha => h a (by simp [ha]))]
    unfold objSet
    rw [if_neg]
    intro hh
    exact h b (by simp) hh.symm

theorem initBals_at (a : Account) :
    ∀ (accs : List Account) (m : ObjMap), a ∈ accs → (accs.map Account.id).Nodup →
    (accs.foldl (fun m a => objSet m a.id (some a.initialBalance)) m) a.id
      = some (some a.initialBalance) := by
  intro accs
  induction accs with
  | nil => intro m h _; simp at h
  | cons b rest ih =>
    intro m hmem hnd
    simp only [List.map_cons, List.nodup_cons] at hnd
    obtain ⟨hnotin, hnd'⟩ := hnd
    rcases List.mem_cons.mp hmem with heq | hmem'
    · subst heq
      simp only [List.foldl_cons]
      rw [foldl_objSet_not_mem _ rest _ ?hne]
      · unfold objSet
        rw [if_pos rfl]
      · intro x hx hxe
        exact hnotin (hxe ▸ List.mem_map_of_mem Account.id hx)
    · simp only [List.foldl_cons]
      exact ih _ hmem' hnd'

theorem perm_any (f : Transaction → Bool) (l l' : List Transaction) (h : l.Perm l') :
    l.any f = l'.any f := by
  cases ha : l.any f with
  | true =>
    obtain ⟨x, hx, hfx⟩ := List.any_eq_true.mp ha
    exact (List.any_eq_true.mpr ⟨x, h.mem_iff.mp hx, hfx⟩).symm
  | false =>
    cases hb : l'.any f with
    | false => rfl
    | true =>
      obtain ⟨x, hx, hfx⟩ := List.any_eq_true.mp hb
      have : l.any f = true := List.any_eq_true.mpr ⟨x, h.mem_iff.mpr hx, hfx⟩
      rw [ha] at this
      exact this.symm ▸ rfl

/-- C1: under the data-model invariants (unique account ids; transfers carry
a truthy `toAccountId`), the balance computation maps each listed account's id
to its `initialBalance` plus the signed sum of the claim-worded per-transaction
contributions, every listed account appears in the result (is not absent) even
with no transactions referencing it, and the result is pointwise identical for
every permutation of the transaction list. -/
theorem claim1 (accounts : List Account) (txs txs' : List Transaction)
    (hnodup : (accounts.map Account.id).Nodup)
    (hwf : ∀ tx ∈ txs, WFtx tx)
    (hperm : txs.Perm txs') :
    (∀ a ∈ accounts, accountBalances accounts txs a.id
        = some (some (a.initialBalance + sumContrib txs a.id)))
    ∧ (∀ a ∈ accounts, accountBalances accounts txs a.id ≠ none)
    ∧ (∀ k, accountBalances accounts txs k = accountBalances accounts txs' k) := by
  have hwf' : ∀ tx ∈ txs', WFtx tx := fun tx htx => hwf tx (hperm.mem_iff.mpr htx)
  refine ⟨?_, ?_, ?_⟩
  · intro a ha
    unfold accountBalances
    rw [balances_foldl_at a.id txs (initBals accounts) hwf]
    unfold initBals
    rw [initBals_at a accounts emptyObj ha hnodup]
  · intro a ha
    unfold accountBalances
    rw [balances_foldl_at a.id txs (initBals accounts) hwf]
    unfold initBals
    rw [initBals_at a accounts emptyObj ha hnodup]
    simp
  · intro k
    unfold accountBalances
    rw [balances_foldl_at k txs (initBals accounts) hwf,
        balances_foldl_at k txs' (initBals accounts) hwf']
    have hsum : sumContrib txs k = sumContrib txs' k := by
      unfold sumContrib
      exact (hperm.map (fun tx => contribClaim tx k)).sum_eq
    have hany : txs.any (fun tx => touchTx tx k) = txs'.any (fun tx => touchTx tx k) :=
      perm_any _ txs txs' hperm
    rw [hsum, hany]

/-- C1 witness: the specification example (two accounts, an expense and a
transfer) under a transposition of the transaction list. -/
theorem claim1_witness :
    (c1Accounts.map Account.id).Nodup
    ∧ (∀ tx ∈ [c1TxE, c1TxT], WFtx tx)
    ∧ ([c1TxE, c1TxT].Perm [c1TxT, c1TxE])
    ∧ ((∀ a ∈ c1Accounts, accountBalances c1Accounts [c1TxE, c1TxT] a.id
          = some (some (a.initialBalance + sumContrib [c1TxE, c1TxT] a.id)))
      ∧ (∀ a ∈ c1Accounts, accountBalances c1Accounts [c1TxE, c1TxT] a.id ≠ none)
      ∧ (∀ k, accountBalances c1Accounts [c1TxE, c1TxT] k
          = accountBalances c1Accounts [c1TxT, c1TxE] k)) :=
  ⟨by decide, by decide, List.Perm.swap c1TxT c1TxE [],
   claim1 c1Accounts [c1TxE, c1TxT] [c1TxT, c1TxE] (by decide) (by decide)
     (List.Perm.swap c1TxT c1TxE [])⟩

theorem GOC_found (accs : List Account) (n : Str) (a : Account) (hn : n ≠ [])
    (hfind : accs.find? (fun b => b.name == n) = some a) :
    getOrCreateAccountId accs n = (a.id, accs) := by
  unfold getOrCreateAccountId
  rw [if_neg (by simp [List.isEmpty_iff, hn]), hfind]

theorem GOC_state (accs : List Account) (n : Str) :
    ∃ tail, (getOrCreateAccountId accs n).2 = accs ++ tail := by
  unfold getOrCreateAccountId
  split
  · exact ⟨[], by simp⟩
  · split
    · exact ⟨[], by simp⟩
    · exact ⟨_, rfl⟩

theorem find?_stable (p : Account → Bool) (accs tail : List Account) (a : Account)
    (h : accs.find? p = some a) : (accs ++ tail).find? p = some a := by
  rw [List.find?_append, h]
  rfl

theorem GOC_create (accs : List Account) (n : Str) (hn : n ≠ [])
    (hfind : accs.find? (fun b => b.name == n) = none) :
    getOrCreateAccountId accs n
      = ("acc_import_".data ++ natToDigits accs.length,
         accs ++ [{ id := "acc_import_".data ++ natToDigits accs.length, name := n,
                    type := "CASH".data, initialBalance := 0,
                    color := ACCOUNT_COLORS.getD (accs.length % ACCOUNT_COLORS.length) [] }]) := by
  unfold getOrCreateAccountId
  rw [if_neg (by simp [List.isEmpty_iff, hn]), hfind]

/-- C9: account-name resolution is consistent within one reconciliation run:
a non-empty name that exactly matches an account already in the working list
resolves to that account's id without changing the list, and resolving the
same name again — after any number of further resolutions have extended the
working list — yields the same id as the first resolution (also when the
account did not exist before the run and was synthesized by it). -/
theorem claim9 :
    (∀ (accs : List Account) (n : Str) (a : Account), n ≠ [] →
       accs.find? (fun b => b.name == n) = some a →
       getOrCreateAccountId accs n = (a.id, accs))
    ∧ (∀ (accs : List Account) (n : Str) (more : List Str),
       (getOrCreateAccountId
          (more.foldl (fun st m => (getOrCreateAccountId st m).2)
            (getOrCreateAccountId accs n).2) n).1
         = (getOrCreateAccountId accs n).1) := by
  constructor
  · exact fun accs n a hn hfind => GOC_found accs n a hn hfind
  · intro accs n more
    by_cases hn : n = []
    · subst hn
      simp [getOrCreateAccountId]
    · have hstart : ∃ a, ((getOrCreateAccountId accs n).2.find? (fun b => b.name == n) = some a
          ∧ a.id = (getOrCreateAccountId accs n).1) := by
        cases hfind : accs.find? (fun b => b.name == n) with
        | some a => rw [GOC_found accs n a hn hfind]; exact ⟨a, hfind, rfl⟩
        | none =>
          rw [GOC_create accs n hn hfind]
          refine ⟨{ id := "acc_import_".data ++ natToDigits accs.length, name := n,
                    type := "CASH".data, initialBalance := 0,
                    color := ACCOUNT_COLORS.getD (accs.length % ACCOUNT_COLORS.length) [] }, ?_, rfl⟩
          rw [List.find?_append, hfind]
          simp
      obtain ⟨a, hf, hid⟩ := hstart
      have hfold : ∀ (ms : List Str) (s : List Account),
          s.find? (fun b => b.name == n) = some a →
          (ms.foldl (fun st m => (getOrCreateAccountId st m).2) s).find? (fun b => b.name == n)
            = some a := by
        intro ms
        induction ms with
        | nil => intro s hs; exact hs
        | cons m rest ih =>
          intro s hs
          simp only [List.foldl_cons]
          apply ih
          obtain ⟨tail, htail⟩ := GOC_state s m
          rw [htail]
          exact find?_stable _ s tail a hs
      have hf2 := hfold more _ hf
      rw [GOC_found _ n a hn hf2]
      exact hid

/-- C9 witness: resolving the seeded account 現金錢包 returns its existing id
and leaves the list unchanged. -/
theorem claim9_witness :
    ("現金錢包".data ≠ ([] : Str))
    ∧ c9Accounts.find? (fun b => b.name == "現金錢包".data)
        = some { id := "acc_1".data, name := "現金錢包".data, type := "CASH".data,
                 initialBalance := 2000, color := "bg-orange-500".data }
    ∧ getOrCreateAccountId c9Accounts "現金錢包".data
        = ("acc_1".data, c9Accounts) :=
  ⟨by decide, by decide,
   claim9.1 c9Accounts "現金錢包".data
     { id := "acc_1".data, name := "現金錢包".data, type := "CASH".data,
       initialBalance := 2000, color := "bg-orange-500".data }
     (by decide) (by decide)⟩

/-- C8 counterexample: importing a CSV whose single data row has the amount
field `1,234` yields one transaction with amount 1 (`parseFloat` stops at the
comma) — the thousands separator is not stripped (which would give 1234) and
the row is not discarded either. -/
theorem claim8_counterexample :
    (importCSV [] c8Text).map (fun p => p.1.map (fun t => t.amount)) = some [some 1]
    ∧ some (1 : Int) ≠ some (1234 : Int)
    ∧ (importCSV [] c8Text).map (fun p => p.1.length) = some 1 := by
  refine ⟨by decide, by decide, by decide⟩

/-- C8 (amended): in the CSV import path the amount is parsed without
stripping thousands separators and a row whose amount fails to parse is
discarded entirely — it produces no transaction and synthesizes no account
(the import state is returned untouched); in the spreadsheet-restore path
thousands separators are stripped before parsing, but a row with a
non-numeric amount is not discarded: it yields a transaction with amount 0. -/
theorem claim8_amended :
    (∀ (accounts0 : List Account) (st : ImportState) (line : Str),
       parseFloatM (((splitCSV (trimStr line)).map cleanField).getD 2 []) = none →
       processLine accounts0 st line = st)
    ∧ (∀ row : List Str, ¬ row.length < 3 →
       ∃ tx, restoreRow row = some tx
         ∧ tx.amount = some ((parseFloatM ((row.getD 2 []).filter (fun c => c ≠ ','))).getD 0)) := by
  constructor
  · intro accounts0 st line hnone
    simp only [processLine]
    by_cases h1 : List.isEmpty (trimStr line) = true
    · rw [if_pos h1]
    · rw [if_neg h1]
      by_cases h2 : (List.map cleanField (splitCSV (trimStr line))).length < 3
      · rw [if_pos h2]
      · rw [if_neg h2, hnone]
  · intro row hlen
    unfold restoreRow
    rw [if_neg hlen]
    refine ⟨_, rfl, ?_⟩
    cases parseFloatM ((row.getD 2 []).filter (fun c => c ≠ ',')) <;> rfl

/-- C8 witness: a CSV line with amount `abc` is dropped without touching the
state, and a restore row with amount `abc` becomes a transaction of amount 0. -/
theorem claim8_witness :
    parseFloatM (((splitCSV (trimStr c8BadLine)).map cleanField).getD 2 []) = none
    ∧ processLine [] ([], []) c8BadLine = ([], [])
    ∧ ¬(["2024-01-02".data, "支出".data, "abc".data] : List Str).length < 3
    ∧ (∃ tx, restoreRow ["2024-01-02".data, "支出".data, "abc".data] = some tx
        ∧ tx.amount = some ((parseFloatM ((["2024-01-02".data, "支出".data, "abc".data].getD 2 []).filter (fun c => c ≠ ','))).getD 0)) :=
  ⟨by decide, claim8_amended.1 [] ([], []) c8BadLine (by decide), by decide,
   claim8_amended.2 ["2024-01-02".data, "支出".data, "abc".data] (by decide)⟩

theorem count_dq (f : Str) : (dq f).count '"' = 2 * f.count '"' := by
  induction f with
  | nil => rfl
  | cons c rest ih =>
    unfold dq
    by_cases hc : c = '"'
    · subst hc
      rw [if_pos rfl]
      simp [List.count_cons, ih]
      try omega
    · rw [if_neg hc]
      simp [List.count_cons, ih, hc]

theorem splitCSVAux_cons (c : Char) (rest acc : Str) :
    splitCSVAux (c :: rest) acc
      = if c = ',' ∧ rest.count '"' % 2 = 0 then acc.reverse :: splitCSVAux rest []
        else splitCSVAux rest (c :: acc) := rfl

theorem splitCSVAux_dq (rest : Str) (hodd : rest.count '"' % 2 = 1) :
    ∀ (f : Str) (acc : Str),
    splitCSVAux (dq f ++ rest) acc = splitCSVAux rest ((dq f).reverse ++ acc) := by
  intro f
  induction f with
  | nil => intro acc; simp [dq]
  | cons c cs ih =>
    intro acc
    unfold dq
    by_cases hc : c = '"'
    · subst hc
      rw [if_pos rfl]
      show splitCSVAux ('"' :: '"' :: (dq cs ++ rest)) acc = _
      rw [splitCSVAux_cons, if_neg (fun h => absurd h.1 (by decide))]
      rw [splitCSVAux_cons, if_neg (fun h => absurd h.1 (by decide))]
      rw [ih ('"' :: '"' :: acc)]
      congr 1
      simp
    · rw [if_neg hc]
      show splitCSVAux (c :: (dq cs ++ rest)) acc = _
      rw [splitCSVAux_cons, if_neg ?hcond]
      case hcond =>
        intro hand
        have hcnt := hand.2
        rw [List.count_append, count_dq] at hcnt
        omega
      rw [ih (c :: acc)]
      congr 1
      simp

theorem count_escField (f : Str) : (escField f).count '"' = 2 * f.count '"' + 2 := by
  unfold escField
  simp [List.count_cons, List.count_append, count_dq]
  try omega

theorem intercalate_cons₂ (sep : Str) (a b : Str) (l : List Str) :
    List.intercalate sep (a :: b :: l) = a ++ sep ++ List.intercalate sep (b :: l) := by
  simp [List.intercalate, List.intersperse]

theorem count_join_even (l : List Str) :
    (List.intercalate [','] (l.map escField)).count '"' % 2 = 0 := by
  induction l with
  | nil => rfl
  | cons f fs ih =>
    cases fs with
    | nil =>
      simp only [List.map_cons, List.map_nil, List.intercalate]
      simp [List.intersperse, count_escField]
      try omega
    | cons g gs =>
      rw [List.map_cons] at ih
      rw [List.map_cons, List.map_cons, intercalate_cons₂, List.count_append, List.count_append,
        count_escField]
      have hB : (([','] : Str).count '"') = 0 := by decide
      rw [hB]
      omega

theorem splitCSVAux_esc (f rest : Str) (acc : Str) (heven : rest.count '"' % 2 = 0) :
    splitCSVAux (escField f ++ rest) acc = splitCSVAux rest ((escField f).reverse ++ acc) := by
  unfold escField
  show splitCSVAux ('"' :: (dq f ++ ['"'] ++ rest)) acc = _
  rw [splitCSVAux_cons, if_neg (fun h => absurd h.1 (by decide))]
  have hodd : ('"' :: rest).count '"' % 2 = 1 := by
    simp [List.count_cons]
    omega
  have hassoc : dq f ++ ['"'] ++ rest = dq f ++ ('"' :: rest) := by simp
  rw [hassoc, splitCSVAux_dq ('"' :: rest) hodd f ('"' :: acc)]
  rw [splitCSVAux_cons, if_neg (fun h => absurd h.1 (by decide))]
  congr 1
  simp

theorem splitCSVAux_join (fs : List Str) :
    ∀ (f : Str) (acc : Str),
    splitCSVAux (List.intercalate [','] ((f :: fs).map escField)) acc
      = (acc.reverse ++ escField f) :: fs.map escField := by
  induction fs with
  | nil =>
    intro f acc
    have hh : List.intercalate [','] ([f].map escField) = escField f := by
      simp [List.intercalate, List.intersperse]
    rw [hh]
    have := splitCSVAux_esc f [] acc (by decide)
    simp only [List.append_nil] at this
    rw [this]
    simp [splitCSVAux]
  | cons g gs ih =>
    intro f acc
    rw [List.map_cons, List.map_cons, intercalate_cons₂, ← List.map_cons]
    have hassoc : escField f ++ [','] ++ List.intercalate [','] ((g :: gs).map escField)
        = escField f ++ (',' :: List.intercalate [','] ((g :: gs).map escField)) := by simp
    rw [hassoc]
    rw [splitCSVAux_esc f _ acc (by
      simp [List.count_cons]
      exact count_join_even (g :: gs))]
    rw [splitCSVAux_cons, if_pos ⟨rfl, count_join_even (g :: gs)⟩]
    rw [ih g []]
    simp

theorem splitCSV_join (fields : List Str) (hne : fields ≠ []) :
    splitCSV (List.intercalate [','] (fields.map escField)) = fields.map escField := by
  cases fields with
  | nil => exact absurd rfl hne
  | cons f fs =>
    unfold splitCSV
    rw [splitCSVAux_join fs f []]
    simp

theorem unDouble_cons_ne (c : Char) (rest : Str) (hc : c ≠ '"') :
    unDouble (c :: rest) = c :: unDouble rest := by
  rw [unDouble.eq_def]
  split
  · rename_i rest' heq
    exact absurd (List.cons_eq_cons.mp heq).1 hc
  · rename_i heq c' rest' hne heq2
    obtain ⟨h1, h2⟩ := List.cons_eq_cons.mp heq2
    rw [← h1, ← h2]
  · rename_i heq
    simp at heq

theorem unDouble_dq (f : Str) : unDouble (dq f) = f := by
  induction f with
  | nil => rfl
  | cons c cs ih =>
    unfold dq
    by_cases hc : c = '"'
    · subst hc
      rw [if_pos rfl]
      show unDouble ('"' :: '"' :: dq cs) = '"' :: cs
      rw [show unDouble ('"' :: '"' :: dq cs) = '"' :: unDouble (dq cs) from rfl, ih]
    · rw [if_neg hc]
      rw [unDouble_cons_ne c (dq cs) hc, ih]

theorem trimStr_eq_self (l : Str) (h1 : ∀ c, l.head? = some c → jsWS c = false)
    (h2 : ∀ c, l.getLast? = some c → jsWS c = false) : trimStr l = l := by
  unfold trimStr
  cases hl : l with
  | nil => rfl
  | cons c rest =>
    have hdrop1 : (c :: rest).dropWhile jsWS = c :: rest := by
      rw [List.dropWhile_cons]
      rw [h1 c (by rw [hl]; rfl)]
      simp
    rw [hdrop1]
    cases hrev : (c :: rest).reverse with
    | nil => simp at hrev
    | cons d ds =>
      have hlast : l.getLast? = some d := by
        rw [hl, List.getLast?_eq_head?_reverse, hrev]
        rfl
      rw [List.dropWhile_cons, h2 d hlast]
      simp only [Bool.false_eq_true, if_false]
      rw [← hrev, List.reverse_reverse]

theorem escField_head (f : Str) : (escField f).head? = some '"' := rfl

theorem escField_getLast (f : Str) : (escField f).getLast? = some '"' := by
  unfold escField
  rw [show ('"' :: dq f ++ ['"']) = ('"' :: dq f) ++ ['"'] from rfl]
  rw [List.getLast?_concat]

theorem jsWS_quote : jsWS '"' = false := by decide

theorem trimStr_escField (f : Str) : trimStr (escField f) = escField f := by
  apply trimStr_eq_self
  · intro c hc
    rw [escField_head] at hc
    cases hc
    exact jsWS_quote
  · intro c hc
    rw [escField_getLast] at hc
    cases hc
    exact jsWS_quote

theorem dropOuterQuotes_escField (f : Str) : dropOuterQuotes (escField f) = dq f := by
  show (match (dq f ++ ['"'] : Str).getLast? with
        | some '"' => (dq f ++ ['"'] : Str).dropLast
        | _ => dq f ++ ['"']) = dq f
  rw [List.getLast?_concat]
  show (dq f ++ ['"'] : Str).dropLast = dq f
  rw [List.dropLast_concat]

theorem cleanField_escField (f : Str) : cleanField (escField f) = f := by
  unfold cleanField
  rw [trimStr_escField, dropOuterQuotes_escField, unDouble_dq]

theorem map_cleanField_escField (fields : List Str) :
    (fields.map escField).map cleanField = fields := by
  rw [List.map_map]
  have : (cleanField ∘ escField) = id := by
    funext f
    exact cleanField_escField f
  rw [this, List.map_id]

theorem splitChar_cons (c x : Char) (rest : Str) :
    splitChar c (x :: rest)
      = if x = c then [] :: splitChar c rest
        else match splitChar c rest with
             | f :: fs => (x :: f) :: fs
             | [] => [[x]] := rfl

theorem splitChar_not_mem (c : Char) (l : Str) (h : c ∉ l) : splitChar c l = [l] := by
  induction l with
  | nil => rfl
  | cons x rest ih =>
    rw [splitChar_cons, if_neg (fun hx => h (by rw [← hx]; exact List.mem_cons_self x rest))]
    rw [ih (fun hr => h (List.mem_cons_of_mem x hr))]

theorem splitChar_append (c : Char) (l r : Str) (h : c ∉ l) :
    splitChar c (l ++ c :: r) = l :: splitChar c r := by
  induction l with
  | nil =>
    show splitChar c (c :: r) = [] :: splitChar c r
    rw [splitChar_cons, if_pos rfl]
  | cons x rest ih =>
    show splitChar c (x :: (rest ++ c :: r)) = (x :: rest) :: splitChar c r
    rw [splitChar_cons, if_neg (fun hx => h (by rw [← hx]; exact List.mem_cons_self x rest))]
    rw [ih (fun hr => h (List.mem_cons_of_mem x hr))]

theorem splitChar_intercalate (c : Char) :
    ∀ (ls : List Str), ls ≠ [] → (∀ l ∈ ls, c ∉ l) →
    splitChar c (List.intercalate [c] ls) = ls := by
  intro ls
  induction ls with
  | nil => intro h _; exact absurd rfl h
  | cons l rest ih =>
    intro _ hmem
    cases rest with
    | nil =>
      have : List.intercalate [c] [l] = l := by simp [List.intercalate, List.intersperse]
      rw [this]
      exact splitChar_not_mem c l (hmem l (by simp))
    | cons l2 rest2 =>
      rw [intercalate_cons₂]
      have hassoc : l ++ [c] ++ List.intercalate [c] (l2 :: rest2)
          = l ++ c :: List.intercalate [c] (l2 :: rest2) := by simp
      rw [hassoc, splitChar_append c l _ (hmem l (by simp))]
      rw [ih (by simp) (fun x hx => hmem x (by simp [hx]))]

theorem mem_dq (x : Char) (f : Str) (h : x ∈ dq f) : x ∈ f ∨ x = '"' := by
  induction f with
  | nil => simp [dq] at h
  | cons c cs ih =>
    unfold dq at h
    by_cases hc : c = '"'
    · subst hc
      rw [if_pos rfl] at h
      rcases List.mem_cons.mp h with h1 | h2
      · right; exact h1
      · rcases List.mem_cons.mp h2 with h3 | h4
        · right; exact h3
        · rcases ih h4 with hin | hq
          · left; exact List.mem_cons_of_mem _ hin
          · right; exact hq
    · rw [if_neg hc] at h
      rcases List.mem_cons.mp h with h1 | h2
      · left; rw [h1]; exact List.mem_cons_self c cs
      · rcases ih h2 with hin | hq
        · left; exact List.mem_cons_of_mem _ hin
        · right; exact hq

theorem mem_escField (x : Char) (f : Str) (h : x ∈ escField f) : x ∈ f ∨ x = '"' := by
  unfold escField at h
  rcases List.mem_cons.mp h with h1 | h2
  · right; exact h1
  · rcases List.mem_append.mp h2 with h3 | h4
    · exact mem_dq x f h3
    · right; simpa using h4

theorem mem_intercalate_comma (x : Char) :
    ∀ (ls : List Str), x ∈ List.intercalate [','] ls → x = ',' ∨ ∃ l ∈ ls, x ∈ l := by
  intro ls
  induction ls with
  | nil => intro h; simp [List.intercalate] at h
  | cons l rest ih =>
    intro h
    cases rest with
    | nil =>
      have : List.intercalate [','] [l] = l := by simp [List.intercalate, List.intersperse]
      rw [this] at h
      exact Or.inr ⟨l, by simp, h⟩
    | cons l2 rest2 =>
      rw [intercalate_cons₂] at h
      rcases List.mem_append.mp h with h1 | h2
      · rcases List.mem_append.mp h1 with h3 | h4
        · exact Or.inr ⟨l, by simp, h3⟩
        · left; simpa using h4
      · rcases ih h2 with h5 | hex
        · left; exact h5
        · obtain ⟨l9, hl9, hx9⟩ := hex
          exact Or.inr ⟨l9, by simp [hl9], hx9⟩

theorem digitVal_digitChar (k : Nat) (h : k < 10) : digitVal (digitChar k) = some k := by
  interval_cases k <;> decide

theorem digitChar_isDigit (k : Nat) : (digitVal (digitChar k)).isSome = true := by
  by_cases h : k < 10
  · rw [digitVal_digitChar k h]; rfl
  · have : digitChar k = '9' := by
      unfold digitChar
      rcases k with _|_|_|_|_|_|_|_|_|k <;> first | omega | rfl
    rw [this]; decide

theorem natToDigitsAux_digits (fuel : Nat) :
    ∀ n, n < fuel → ∀ c ∈ natToDigitsAux fuel n, ∃ k, k < 10 ∧ c = digitChar k := by
  induction fuel with
  | zero => intro n h; omega
  | succ f ih =>
    intro n hn c hc
    unfold natToDigitsAux at hc
    by_cases h10 : n < 10
    · rw [if_pos h10] at hc
      simp at hc
      exact ⟨n, h10, hc⟩
    · rw [if_neg h10] at hc
      rcases List.mem_append.mp hc with h1 | h2
      · exact ih (n / 10) (by omega) c h1
      · refine ⟨n % 10, by omega, by simpa using h2⟩

theorem natToDigitsAux_ne_nil (fuel n : Nat) (h : n < fuel) :
    natToDigitsAux fuel n ≠ [] := by
  cases fuel with
  | zero => omega
  | succ f =>
    unfold natToDigitsAux
    by_cases h10 : n < 10
    · rw [if_pos h10]; simp
    · rw [if_neg h10]; simp

theorem parseDigitsAux_cons (c : Char) (rest : Str) (acc : Nat) :
    parseDigitsAux (c :: rest) acc
      = match digitVal c with
        | some d => parseDigitsAux rest (acc * 10 + d)
        | none => acc := rfl

theorem parseDigitsAux_append (s t : Str) :
    ∀ acc, (∀ c ∈ s, (digitVal c).isSome = true) →
    parseDigitsAux (s ++ t) acc = parseDigitsAux t (parseDigitsAux s acc) := by
  induction s with
  | nil => intro acc _; rfl
  | cons c rest ih =>
    intro acc hdig
    rw [show ((c :: rest) ++ t : Str) = c :: (rest ++ t) from rfl]
    rw [parseDigitsAux_cons, parseDigitsAux_cons]
    cases hdv : digitVal c with
    | none =>
      have := hdig c (by simp)
      rw [hdv] at this
      simp at this
    | some d =>
      exact ih (acc * 10 + d) (fun x hx => hdig x (by simp [hx]))

theorem natToDigitsAux_val (fuel : Nat) :
    ∀ n acc, n < fuel →
    parseDigitsAux (natToDigitsAux fuel n) acc
      = acc * 10 ^ (natToDigitsAux fuel n).length + n := by
  induction fuel with
  | zero => intro n acc h; omega
  | succ f ih =>
    intro n acc hn
    unfold natToDigitsAux
    by_cases h10 : n < 10
    · rw [if_pos h10]
      unfold parseDigitsAux
      rw [digitVal_digitChar n h10]
      show acc * 10 + n = acc * 10 ^ ([digitChar n] : Str).length + n
      simp
    · rw [if_neg h10]
      rw [parseDigitsAux_append _ _ acc
        (fun c hc => by
          obtain ⟨k, hk, hck⟩ := natToDigitsAux_digits f (n / 10) (by omega) c hc
          rw [hck]
          exact digitChar_isDigit k)]
      rw [ih (n / 10) acc (by omega)]
      show parseDigitsAux [digitChar (n % 10)] _ = _
      unfold parseDigitsAux
      rw [digitVal_digitChar (n % 10) (by omega)]
      show (acc * 10 ^ (natToDigitsAux f (n / 10)).length + n / 10) * 10 + n % 10
        = acc * 10 ^ (natToDigitsAux f (n / 10) ++ [digitChar (n % 10)]).length + n
      rw [List.length_append]
      have hpow : (10 : Nat) ^ ((natToDigitsAux f (n / 10)).length + [digitChar (n % 10)].length)
          = 10 ^ (natToDigitsAux f (n / 10)).length * 10 := by
        simp [pow_succ]
      rw [hpow]
      have := Nat.div_add_mod n 10
      ring_nf
      omega

theorem parseFloatM_cons (c : Char) (rest : Str) :
    parseFloatM (c :: rest)
      = if c = '-' then
          (match rest with
           | c2 :: _ => if (digitVal c2).isSome then some (-(parseDigitsAux rest 0 : Int)) else none
           | [] => none)
        else if (digitVal c).isSome then some ((parseDigitsAux (c :: rest) 0 : Int)) else none := rfl

theorem parseFloatM_natToDigits (n : Nat) : parseFloatM (natToDigits n) = some ((n : Int)) := by
  unfold natToDigits
  cases hnd : natToDigitsAux (n + 1) n with
  | nil => exact absurd hnd (natToDigitsAux_ne_nil (n + 1) n (by omega))
  | cons c rest =>
    have hcdig : ∃ k, k < 10 ∧ c = digitChar k :=
      natToDigitsAux_digits (n + 1) n (by omega) c (by rw [hnd]; simp)
    obtain ⟨k, hk, hck⟩ := hcdig
    have hcne : ¬(c = '-') := by
      rw [hck]
      interval_cases k <;> decide
    rw [parseFloatM_cons, if_neg hcne]
    have hdig : (digitVal c).isSome = true := by rw [hck]; exact digitChar_isDigit k
    rw [if_pos hdig]
    have hval := natToDigitsAux_val (n + 1) n 0 (by omega)
    rw [hnd] at hval
    rw [hval]
    simp

theorem parseFloatM_intToStr (n : Nat) : parseFloatM (intToStr ((n : Int))) = some ((n : Int)) := by
  unfold intToStr
  rw [if_neg (by omega)]
  rw [Int.toNat_natCast]
  exact parseFloatM_natToDigits n

theorem parseISO_explicit (a b c d e f g h : Char) :
    parseISO [a, b, c, d, '-', e, f, '-', g, h]
      = (match digitVal a, digitVal b, digitVal c, digitVal d,
              digitVal e, digitVal f, digitVal g, digitVal h with
         | some va, some vb, some vc, some vd, some ve, some vf, some vg, some vh =>
            let y : Nat := 1000 * va + 100 * vb + 10 * vc + vd
            let mo : Nat := 10 * ve + vf
            let dd : Nat := 10 * vg + vh
            if 1 ≤ mo ∧ mo ≤ 12 ∧ 1 ≤ dd ∧ dd ≤ daysInMonth ((y : Int)) (mo - 1) then
              some ⟨(y : Int), mo - 1, dd⟩
            else none
         | _, _, _, _, _, _, _, _ => none) := by
  simp only [parseISO]
  rw [if_pos (⟨trivial, trivial⟩ : True ∧ True)]

theorem parseISO_formatYMD (dt : YMD) (h : Valid4 dt) : parseISO (formatYMD dt) = some dt := by
  obtain ⟨⟨hm, hdlo, hdhi⟩, hy1, hy2⟩ := h
  have hdim := daysInMonth_bounds dt.y dt.m
  have hY : ((dt.y.toNat : Int)) = dt.y := Int.toNat_of_nonneg (by omega)
  have hYle : dt.y.toNat ≤ 9999 := by omega
  show parseISO [digitChar (dt.y.toNat / 1000), digitChar (dt.y.toNat / 100 % 10),
      digitChar (dt.y.toNat / 10 % 10), digitChar (dt.y.toNat % 10), '-',
      digitChar ((dt.m + 1) / 10), digitChar ((dt.m + 1) % 10), '-',
      digitChar (dt.d / 10), digitChar (dt.d % 10)] = some dt
  rw [parseISO_explicit,
      digitVal_digitChar (dt.y.toNat / 1000) (by omega),
      digitVal_digitChar (dt.y.toNat / 100 % 10) (by omega),
      digitVal_digitChar (dt.y.toNat / 10 % 10) (by omega),
      digitVal_digitChar (dt.y.toNat % 10) (by omega),
      digitVal_digitChar ((dt.m + 1) / 10) (by omega),
      digitVal_digitChar ((dt.m + 1) % 10) (by omega),
      digitVal_digitChar (dt.d / 10) (by omega),
      digitVal_digitChar (dt.d % 10) (by omega)]
  show (if 1 ≤ 10 * ((dt.m + 1) / 10) + (dt.m + 1) % 10
          ∧ 10 * ((dt.m + 1) / 10) + (dt.m + 1) % 10 ≤ 12
          ∧ 1 ≤ 10 * (dt.d / 10) + dt.d % 10
          ∧ 10 * (dt.d / 10) + dt.d % 10
              ≤ daysInMonth (((1000 * (dt.y.toNat / 1000) + 100 * (dt.y.toNat / 100 % 10)
                  + 10 * (dt.y.toNat / 10 % 10) + dt.y.toNat % 10 : Nat) : Int))
                (10 * ((dt.m + 1) / 10) + (dt.m + 1) % 10 - 1) then
        some ⟨((1000 * (dt.y.toNat / 1000) + 100 * (dt.y.toNat / 100 % 10)
                  + 10 * (dt.y.toNat / 10 % 10) + dt.y.toNat % 10 : Nat) : Int),
              10 * ((dt.m + 1) / 10) + (dt.m + 1) % 10 - 1,
              10 * (dt.d / 10) + dt.d % 10⟩
      else none) = some dt
  have hyy : 1000 * (dt.y.toNat / 1000) + 100 * (dt.y.toNat / 100 % 10)
      + 10 * (dt.y.toNat / 10 % 10) + dt.y.toNat % 10 = dt.y.toNat := by omega
  have hmo : 10 * ((dt.m + 1) / 10) + (dt.m + 1) % 10 = dt.m + 1 := by omega
  have hdd : 10 * (dt.d / 10) + dt.d % 10 = dt.d := by omega
  rw [hyy, hmo, hdd, hY, Nat.add_sub_cancel]
  rw [if_pos ⟨by omega, by omega, hdlo, hdhi⟩]

theorem digitChar_cases (k : Nat) :
    digitChar k = '0' ∨ digitChar k = '1' ∨ digitChar k = '2' ∨ digitChar k = '3'
    ∨ digitChar k = '4' ∨ digitChar k = '5' ∨ digitChar k = '6' ∨ digitChar k = '7'
    ∨ digitChar k = '8' ∨ digitChar k = '9' := by
  unfold digitChar
  rcases k with _|_|_|_|_|_|_|_|_|k <;> simp

theorem digitChar_not_sep (k : Nat) :
    ¬(digitChar k = '_' ∨ digitChar k = '/' ∨ digitChar k = '.') := by
  rcases digitChar_cases k with h|h|h|h|h|h|h|h|h|h <;> rw [h] <;> decide

theorem digitChar_ne_nl (k : Nat) : digitChar k ≠ '\n' := by
  rcases digitChar_cases k with h|h|h|h|h|h|h|h|h|h <;> rw [h] <;> decide

theorem mem_formatYMD (x : Char) (dt : YMD) (hx : x ∈ formatYMD dt) :
    (∃ k, x = digitChar k) ∨ x = '-' := by
  unfold formatYMD at hx
  simp only [List.cons_append, List.nil_append, List.mem_cons, List.not_mem_nil, or_false] at hx
  rcases hx with h|h|h|h|h|h|h|h|h|h <;>
    first
    | (left; exact ⟨_, h⟩)
    | (right; exact h)

theorem normalizeDate_formatYMD (dt : YMD) (h : Valid4 dt) :
    normalizeDate (formatYMD dt) = formatYMD dt := by
  unfold normalizeDate
  have hmap : (formatYMD dt).map (fun c => if c = '_' ∨ c = '/' ∨ c = '.' then '-' else c)
      = formatYMD dt := by
    have hcongr : ∀ c ∈ formatYMD dt,
        (if c = '_' ∨ c = '/' ∨ c = '.' then '-' else c) = id c := by
      intro c hc
      rcases mem_formatYMD c dt hc with ⟨k, hk⟩ | hdash
      · rw [if_neg (hk ▸ digitChar_not_sep k)]
        rfl
      · rw [if_neg (by rw [hdash]; decide)]
        rfl
    rw [List.map_congr_left hcongr, List.map_id]
  rw [hmap]
  show (match parseISO (formatYMD dt) with
        | some d => formatYMD d
        | none => formatYMD dt) = formatYMD dt
  rw [parseISO_formatYMD dt h]

theorem noNL_formatYMD (dt : YMD) : noNL (formatYMD dt) := by
  intro hmem
  rcases mem_formatYMD '\n' dt hmem with ⟨k, hk⟩ | hdash
  · exact digitChar_ne_nl k hk.symm
  · exact absurd hdash (by decide)

theorem noNL_natToDigits (n : Nat) : noNL (natToDigits n) := by
  intro hmem
  obtain ⟨k, _, hk⟩ := natToDigitsAux_digits (n + 1) n (by omega) '\n' hmem
  exact digitChar_ne_nl k hk.symm

theorem GOC_spec (accs : List Account) (n : Str) (hn : n ≠ [])
    (hids : ∀ a ∈ accs, a.id ≠ []) :
    (∀ a ∈ accs, a ∈ (getOrCreateAccountId accs n).2)
    ∧ (∀ a ∈ (getOrCreateAccountId accs n).2, a.id ≠ [])
    ∧ (getOrCreateAccountId accs n).1 ≠ []
    ∧ ∃ a ∈ (getOrCreateAccountId accs n).2,
        a.id = (getOrCreateAccountId accs n).1 ∧ a.name = n := by
  cases hfind : accs.find? (fun b => b.name == n) with
  | some a =>
    rw [GOC_found accs n a hn hfind]
    have hmem : a ∈ accs := List.mem_of_find?_eq_some hfind
    have hname : a.name = n := by
      have := List.find?_some hfind
      simpa using this
    exact ⟨fun a ha => ha, hids, hids a hmem, a, hmem, rfl, hname⟩
  | none =>
    rw [GOC_create accs n hn hfind]
    refine ⟨fun a ha => List.mem_append_left _ ha, ?_, by simp, ?_⟩
    · intro a ha
      rcases List.mem_append.mp ha with h1 | h2
      · exact hids a h1
      · simp only [List.mem_singleton] at h2
        rw [h2]
        simp
    · exact ⟨{ id := "acc_import_".data ++ natToDigits accs.length, name := n,
               type := "CASH".data, initialBalance := 0,
               color := ACCOUNT_COLORS.getD (accs.length % ACCOUNT_COLORS.length) [] },
             List.mem_append_right _ (by simp), rfl, rfl⟩

theorem parseTypeLabel_typeLabel (t : TransactionType) : parseTypeLabel (typeLabel t) = t := by
  cases t <;> decide

theorem exportLine_head (A : List Account) (tx : Transaction) :
    (exportLine A tx).head? = some '"' := rfl

theorem getLast?_intercalate_esc (fs : List Str) :
    ∀ (f : Str), (List.intercalate [','] ((f :: fs).map escField)).getLast? = some '"' := by
  induction fs with
  | nil =>
    intro f
    have : List.intercalate [','] ([f].map escField) = escField f := by
      simp [List.intercalate, List.intersperse]
    rw [this, escField_getLast]
  | cons g gs ih =>
    intro f
    rw [List.map_cons, List.map_cons, intercalate_cons₂, ← List.map_cons]
    rw [List.append_assoc, List.getLast?_append, List.getLast?_append]
    rw [ih g]
    rfl

theorem trimStr_exportLine (A : List Account) (tx : Transaction) :
    trimStr (exportLine A tx) = exportLine A tx := by
  apply trimStr_eq_self
  · intro c hc
    rw [exportLine_head] at hc
    cases hc
    exact jsWS_quote
  · intro c hc
    unfold exportLine at hc
    rw [show rowFields A tx
        = [tx.date, typeLabel tx.type, amountField tx.amount, catNameOf tx.category,
           tx.description, tx.location, accNameOf A tx.accountId,
           if optTruthy tx.toAccountId then accNameOf A (tx.toAccountId.getD []) else []]
      from rfl] at hc
    rw [getLast?_intercalate_esc] at hc
    cases hc
    exact jsWS_quote

theorem splitCSV_exportLine (A : List Account) (tx : Transaction) :
    splitCSV (exportLine A tx) = (rowFields A tx).map escField := by
  unfold exportLine
  apply splitCSV_join
  rw [show rowFields A tx
      = [tx.date, typeLabel tx.type, amountField tx.amount, catNameOf tx.category,
         tx.description, tx.location, accNameOf A tx.accountId,
         if optTruthy tx.toAccountId then accNameOf A (tx.toAccountId.getD []) else []]
    from rfl]
  simp

theorem amountField_some (v : Int) : amountField (some v) = intToStr v := rfl

theorem accNameOf_eq (A : List Account) (id : Str) (a : Account)
    (h : findById A id = some a) : accNameOf A id = a.name := by
  unfold accNameOf
  rw [h]

set_option maxHeartbeats 1000000 in
theorem processLine_export (origAccounts accounts0 : List Account) (tx : Transaction)
    (st : ImportState) (hok : RowOK origAccounts tx) (hids : ∀ a ∈ st.2, a.id ≠ []) :
    ∃ ntx accs2,
      processLine accounts0 st (exportLine origAccounts tx) = (st.1 ++ [ntx], accs2)
      ∧ FieldMatch origAccounts tx ntx accs2
      ∧ (∀ a ∈ st.2, a ∈ accs2) ∧ (∀ a ∈ accs2, a.id ≠ []) := by
  obtain ⟨⟨dtv, hdtv, hdate⟩, ⟨amtN, hamt⟩, hdesc, hloc, hcat, ⟨oa, hoa, hoaname, hoanl⟩, hto⟩ := hok
  have hlineempty : (exportLine origAccounts tx).isEmpty = false := by
    have hh := exportLine_head origAccounts tx
    cases hline : exportLine origAccounts tx with
    | nil => rw [hline] at hh; cases hh
    | cons c rest => rfl
  have hrowlen : (rowFields origAccounts tx).length = 8 := rfl
  have haccname : accNameOf origAccounts tx.accountId = oa.name := accNameOf_eq _ _ _ hoa
  have hoanempty : oa.name.isEmpty = false := by
    cases hn : oa.name with
    | nil => exact absurd hn hoaname
    | cons c r => rfl
  have hfmtne : (formatYMD dtv).isEmpty = false := rfl
  have spec1 := GOC_spec st.2 oa.name hoaname hids
  obtain ⟨mono1, ids1, idne1, a1, ha1mem, ha1id, ha1name⟩ := spec1
  have haccne : (getOrCreateAccountId st.2 oa.name).1.isEmpty = false := by
    cases hn : (getOrCreateAccountId st.2 oa.name).1 with
    | nil => exact absurd hn idne1
    | cons c r => rfl
  rcases hto with ⟨htonone, htynt⟩ | ⟨t, ob, htoeq, htne, htytr, hob, hobname, hobnl⟩
  · -- non-transfer row
    have heq : processLine accounts0 st (exportLine origAccounts tx)
        = (st.1 ++ [{ id := "import".data,
                      date := formatYMD dtv,
                      amount := some ((amtN : Int)),
                      type := tx.type,
                      category := getCategoryId (catNameOf tx.category) tx.type,
                      description := tx.description,
                      location := tx.location,
                      accountId := (getOrCreateAccountId st.2 oa.name).1,
                      toAccountId := none }],
           (getOrCreateAccountId st.2 oa.name).2) := by
      simp only [processLine, trimStr_exportLine, hlineempty, Bool.false_eq_true, if_false,
        splitCSV_exportLine, map_cleanField_escField, hrowlen, rowFields,
        List.getD_cons_zero, List.getD_cons_succ, htonone, optTruthy, if_false,
        hdate, normalizeDate_formatYMD dtv hdtv, hamt, amountField_some, parseFloatM_intToStr,
        parseTypeLabel_typeLabel, haccname, hfmtne, haccne, List.isEmpty_nil]
      simp [htynt]
    refine ⟨_, _, heq, ?_, mono1, ids1⟩
    refine ⟨hdate.symm, hamt.symm, rfl, rfl, rfl, ?_, ?_⟩
    · exact ⟨a1, ha1mem, ha1id, oa, hoa, ha1name⟩
    · intro t' ht'
      rw [htonone] at ht'
      cases ht'
  · -- transfer row
    have hoptt : optTruthy tx.toAccountId = true := by
      rw [htoeq]
      unfold optTruthy
      cases hn : t with
      | nil => exact absurd hn htne
      | cons c r => rfl
    have htoname : accNameOf origAccounts (tx.toAccountId.getD []) = ob.name := by
      rw [htoeq]
      exact accNameOf_eq _ _ _ hob
    have hobnempty : ob.name.isEmpty = false := by
      cases hn : ob.name with
      | nil => exact absurd hn hobname
      | cons c r => rfl
    obtain ⟨mono2, ids2, idne2, b2, hb2mem, hb2id, hb2name⟩ :=
      GOC_spec (getOrCreateAccountId st.2 oa.name).2 ob.name hobname ids1
    have heq : processLine accounts0 st (exportLine origAccounts tx)
        = (st.1 ++ [{ id := "import".data,
                      date := formatYMD dtv,
                      amount := some ((amtN : Int)),
                      type := tx.type,
                      category := getCategoryId (catNameOf tx.category) tx.type,
                      description := tx.description,
                      location := tx.location,
                      accountId := (getOrCreateAccountId st.2 oa.name).1,
                      toAccountId := some ((getOrCreateAccountId
                        (getOrCreateAccountId st.2 oa.name).2 ob.name).1) }],
           (getOrCreateAccountId (getOrCreateAccountId st.2 oa.name).2 ob.name).2) := by
      simp only [processLine, trimStr_exportLine, hlineempty, Bool.false_eq_true, if_false,
        splitCSV_exportLine, map_cleanField_escField, hrowlen, rowFields,
        List.getD_cons_zero, List.getD_cons_succ, hoptt,
        hdate, normalizeDate_formatYMD dtv hdtv, hamt, amountField_some, parseFloatM_intToStr,
        parseTypeLabel_typeLabel, haccname, htoname, hfmtne, haccne, hobnempty,
        htytr, if_true]
      simp
    refine ⟨_, _, heq, ?_, fun a ha => mono2 a (mono1 a ha), ids2⟩
    refine ⟨hdate.symm, hamt.symm, rfl, rfl, rfl, ?_, ?_⟩
    · exact ⟨a1, mono2 a1 ha1mem, ha1id, oa, hoa, ha1name⟩
    · intro t' ht'
      rw [htoeq] at ht'
      cases ht'
      exact ⟨b2, hb2mem, by rw [hb2id], ob, hob, hb2name⟩

theorem FieldMatch_mono (origAccounts : List Account) (o n : Transaction)
    (accs accs' : List Account) (h : FieldMatch origAccounts o n accs)
    (hsub : ∀ a ∈ accs, a ∈ accs') : FieldMatch origAccounts o n accs' := by
  obtain ⟨h1, h2, h3, h4, h5, ⟨a, ha, haid, oa, hoa, haname⟩, h7⟩ := h
  refine ⟨h1, h2, h3, h4, h5, ⟨a, hsub a ha, haid, oa, hoa, haname⟩, ?_⟩
  intro t ht
  obtain ⟨b, hb, hbid, ob, hob, hbname⟩ := h7 t ht
  exact ⟨b, hsub b hb, hbid, ob, hob, hbname⟩

theorem typeLabel_noNL (t : TransactionType) : '\n' ∉ typeLabel t := by
  cases t <;> decide

theorem noNL_exportLine (A : List Account) (tx : Transaction) (hok : RowOK A tx) :
    '\n' ∉ exportLine A tx := by
  obtain ⟨⟨dtv, hdtv, hdate⟩, ⟨amtN, hamt⟩, hdesc, hloc, hcat, ⟨oa, hoa, hoaname, hoanl⟩, hto⟩ := hok
  intro hmem
  unfold exportLine at hmem
  rcases mem_intercalate_comma '\n' _ hmem with hcomma | hex
  · exact absurd hcomma (by decide)
  · obtain ⟨l, hl, hx⟩ := hex
    rcases List.mem_map.mp hl with ⟨f, hf, hesc⟩
    rcases mem_escField '\n' f (by rw [hesc]; exact hx) with hin | hq
    · rw [show rowFields A tx
          = [tx.date, typeLabel tx.type, amountField tx.amount, catNameOf tx.category,
             tx.description, tx.location, accNameOf A tx.accountId,
             if optTruthy tx.toAccountId then accNameOf A (tx.toAccountId.getD []) else []]
        from rfl] at hf
      simp only [List.mem_cons, List.not_mem_nil, or_false] at hf
      rcases hf with hf|hf|hf|hf|hf|hf|hf|hf
      · rw [hf, hdate] at hin
        exact noNL_formatYMD dtv hin
      · rw [hf] at hin
        exact typeLabel_noNL tx.type hin
      · rw [hf, hamt, amountField_some] at hin
        unfold intToStr at hin
        rw [if_neg (by omega), Int.toNat_natCast] at hin
        exact noNL_natToDigits amtN hin
      · rw [hf] at hin
        exact hcat hin
      · rw [hf] at hin
        exact hdesc hin
      · rw [hf] at hin
        exact hloc hin
      · rw [hf, accNameOf_eq A tx.accountId oa hoa] at hin
        exact hoanl hin
      · rw [hf] at hin
        rcases hto with ⟨htonone, _⟩ | ⟨t, ob, htoeq, htne, _, hob, _, hobnl⟩
        · rw [htonone] at hin
          simp [optTruthy] at hin
        · have hoptt : optTruthy tx.toAccountId = true := by
            rw [htoeq]
            unfold optTruthy
            cases hn : t with
            | nil => exact absurd hn htne
            | cons c r => rfl
          rw [if_pos hoptt, htoeq] at hin
          simp only [Option.getD_some] at hin
          rw [accNameOf_eq A t ob hob] at hin
          exact hobnl hin
    · exact absurd hq (by decide)

theorem import_fold (origAccounts accounts0 : List Account) :
    ∀ (txs : List Transaction) (doneTxs : List Transaction) (accs : List Account),
    (∀ tx ∈ txs, RowOK origAccounts tx) → (∀ a ∈ accs, a.id ≠ []) →
    ∃ outTxs outAccs,
      (txs.map (exportLine origAccounts)).foldl (processLine accounts0) (doneTxs, accs)
        = (doneTxs ++ outTxs, outAccs)
      ∧ outTxs.length = txs.length
      ∧ (∀ a ∈ accs, a ∈ outAccs) ∧ (∀ a ∈ outAccs, a.id ≠ [])
      ∧ ∀ i (hi : i < txs.length) (hi' : i < outTxs.length),
          FieldMatch origAccounts (txs.get ⟨i, hi⟩) (outTxs.get ⟨i, hi'⟩) outAccs := by
  intro txs
  induction txs with
  | nil =>
    intro doneTxs accs _ hids
    exact ⟨[], accs, by simp, rfl, fun a ha => ha, hids, fun i hi => absurd hi (by simp)⟩
  | cons o rest ih =>
    intro doneTxs accs hok hids
    obtain ⟨n0, accs1, heq0, hfm0, hmono0, hids1⟩ :=
      processLine_export origAccounts accounts0 o (doneTxs, accs) (hok o (by simp)) hids
    obtain ⟨outTxs', outAccs, heq', hlen', hmono', hids', hfm'⟩ :=
      ih (doneTxs ++ [n0]) accs1 (fun tx htx => hok tx (by simp [htx])) hids1
    refine ⟨n0 :: outTxs', outAccs, ?_, by simp [hlen'], ?_, hids', ?_⟩
    · rw [List.map_cons, List.foldl_cons, heq0, heq']
      simp
    · exact fun a ha => hmono' a (hmono0 a ha)
    · intro i hi hi'
      cases i with
      | zero =>
        show FieldMatch origAccounts o n0 outAccs
        exact FieldMatch_mono origAccounts o n0 accs1 outAccs hfm0 hmono'
      | succ j =>
        show FieldMatch origAccounts (rest.get ⟨j, _⟩) (outTxs'.get ⟨j, _⟩) outAccs
        exact hfm' j (by simp only [List.length_cons] at hi; omega)
          (by simp only [List.length_cons] at hi'; omega)

theorem importCSV_reduce (accounts : List Account) (text : Str) (lines : List Str)
    (hspl : splitChar '\n' text = (bomChar :: headerStr) :: lines) :
    importCSV accounts text = some (lines.foldl (processLine accounts) ([], accounts)) := by
  unfold importCSV
  rw [hspl]
  show (if (containsSub "日期".data (headerStr.filter (fun c => c ≠ '"'))
            && containsSub "金額".data (headerStr.filter (fun c => c ≠ '"'))) = true
        then some (lines.foldl (processLine accounts) ([], accounts))
        else none)
      = some (lines.foldl (processLine accounts) ([], accounts))
  rw [if_pos (by decide)]

theorem splitCSV_exportCSV (origAccounts : List Account) (txs : List Transaction)
    (hok : ∀ tx ∈ txs, RowOK origAccounts tx) :
    splitChar '\n' (exportCSV origAccounts txs)
      = (bomChar :: headerStr) :: txs.map (exportLine origAccounts) := by
  unfold exportCSV
  cases txs with
  | nil =>
    have hone : List.intercalate ['\n'] (headerStr :: ([] : List Transaction).map (exportLine origAccounts))
        = headerStr := by
      simp [List.intercalate, List.intersperse]
    rw [hone]
    rw [splitChar_not_mem '\n' (bomChar :: headerStr) (by decide)]
    rfl
  | cons t rest =>
    rw [List.map_cons, intercalate_cons₂]
    rw [show (bomChar :: (headerStr ++ ['\n']
          ++ List.intercalate ['\n'] (exportLine origAccounts t :: rest.map (exportLine origAccounts))) : Str)
        = (bomChar :: headerStr)
          ++ '\n' :: List.intercalate ['\n'] (exportLine origAccounts t :: rest.map (exportLine origAccounts))
      from by simp]
    rw [splitChar_append '\n' _ _ (by decide)]
    rw [← List.map_cons]
    rw [splitChar_intercalate '\n' ((t :: rest).map (exportLine origAccounts)) (by simp)]
    intro l hl
    rcases List.mem_map.mp hl with ⟨tx, htx, hline⟩
    rw [← hline]
    exact noNL_exportLine origAccounts tx (hok tx htx)

/-- C7: exporting a transaction list whose rows are well formed (`RowOK`:
resolvable account and category names, valid dates, integer amounts, no
embedded newlines) and importing the resulting CSV into any account list with
non-empty ids succeeds and produces one transaction per row with identical
date, amount, type, description and location, whose account ids (source and
transfer destination) belong to accounts in the updated account list bearing
the same names the original ids resolved to (ids may differ). -/
theorem claim7 (origAccounts importAccounts : List Account) (txs : List Transaction)
    (hok : ∀ tx ∈ txs, RowOK origAccounts tx)
    (hids : ∀ a ∈ importAccounts, a.id ≠ []) :
    ∃ newTxs updAccounts,
      importCSV importAccounts (exportCSV origAccounts txs) = some (newTxs, updAccounts)
      ∧ newTxs.length = txs.length
      ∧ ∀ i (hi : i < txs.length) (hi' : i < newTxs.length),
          FieldMatch origAccounts (txs.get ⟨i, hi⟩) (newTxs.get ⟨i, hi'⟩) updAccounts := by
  obtain ⟨outTxs, outAccs, heqf, hlenf, _, _, hfmf⟩ :=
    import_fold origAccounts importAccounts txs [] importAccounts hok hids
  refine ⟨outTxs, outAccs, ?_, hlenf, hfmf⟩
  rw [importCSV_reduce importAccounts _ _ (splitCSV_exportCSV origAccounts txs hok)]
  rw [heqf]
  simp

/-- C7 witness: a concrete transfer with a comma and escaped quotes in its
description survives the round trip into an empty account list. -/
theorem claim7_witness :
    (∀ tx ∈ [c7Tx], RowOK c7Accounts tx)
    ∧ (∀ a ∈ ([] : List Account), a.id ≠ [])
    ∧ ∃ newTxs updAccounts,
        importCSV [] (exportCSV c7Accounts [c7Tx]) = some (newTxs, updAccounts)
        ∧ newTxs.length = [c7Tx].length
        ∧ ∀ i (hi : i < [c7Tx].length) (hi' : i < newTxs.length),
            FieldMatch c7Accounts ([c7Tx].get ⟨i, hi⟩) (newTxs.get ⟨i, hi'⟩) updAccounts := by
  have hok : ∀ tx ∈ [c7Tx], RowOK c7Accounts tx := by
    intro tx htx
    simp only [List.mem_singleton] at htx
    subst htx
    refine ⟨⟨⟨2024, 0, 3⟩, by decide, by decide⟩, ⟨1000, by decide⟩, by decide, by decide, by decide,
      ⟨{ id := "a1".data, name := "現金".data, type := "CASH".data,
         initialBalance := 2000, color := "c1".data },
        by decide, by decide, by decide⟩,
      Or.inr ⟨"a2".data,
        { id := "a2".data, name := "銀行".data, type := "BANK".data,
          initialBalance := 150000, color := "c2".data },
        by decide, by decide, by decide, by decide, by decide, by decide⟩⟩
  exact ⟨hok, fun a ha => absurd ha (List.not_mem_nil a),
    claim7 c7Accounts [] [c7Tx] hok (fun a ha => absurd ha (List.not_mem_nil a))⟩
